import Mathlib

/-!
Verification of the CSV-to-backup converter (`scripts/csv_to_backup.py`).

The program reads a delimited export, isolates the "Strength" section,
cleans each row (trimming keys and values, dropping rows that become empty),
groups records by date, and materializes a workout / exercise /
workout-exercise / set hierarchy into a SQLite file.

This development shallowly embeds the pure core of that script:
records are association lists from column name to string value (mirroring
the Python row dicts); the database connection becomes an explicit state
holding the four tables and the three identity maps; SQLite row ids become
sequential naturals minted at insert time; random UUIDs become a counter
(only the minting order is observable to the properties below); fatal
errors (`sys.exit(1)` on empty extraction, the uncaught `ValueError` of
`float()` / `int()`) become an `Except` error; the wall-clock time used by
the timestamp fallback is passed in as an explicit `now` parameter; epoch
conversion is modelled at UTC offset zero (the script uses the local
timezone, a constant additive offset that none of the properties depend
on).
-/

/-! ### Character-level string utilities

Python's `str.strip`, string comparison and numeral scanning are modelled
directly on the character lists underlying `String`, keeping every
definition reducible by the kernel. -/

/-- The whitespace characters stripped by Python's `str.strip()` (ASCII part). -/
def isSpaceChar (c : Char) : Bool :=
  c = ' ' || c = '\t' || c = '\n' || c = '\x0d' || c = '\x0b' || c = '\x0c'

/-- `s.strip()`: drop leading and trailing whitespace. -/
def pyStrip (s : String) : String :=
  String.mk (((s.data.dropWhile isSpaceChar).reverse.dropWhile isSpaceChar).reverse)

/-- Lexicographic code-point comparison of character lists (Python `<` on `str`). -/
def listCharLt : List Char → List Char → Bool
  | [], [] => false
  | [], _ :: _ => true
  | _ :: _, [] => false
  | a :: as, b :: bs =>
    if a.toNat < b.toNat then true
    else if b.toNat < a.toNat then false
    else listCharLt as bs

/-- Python `<` on strings: lexicographic by code point. -/
def pyStrLt (a b : String) : Bool := listCharLt a.data b.data

/-- A row dictionary: insertion-ordered association list from column name
to string value, mirroring the Python `dict` produced by `csv.DictReader`. -/
def Record : Type := List (String × String)

instance : DecidableEq Record := inferInstanceAs (DecidableEq (List (String × String)))
instance : Inhabited Record := inferInstanceAs (Inhabited (List (String × String)))
instance : Membership (String × String) Record := inferInstanceAs (Membership _ (List (String × String)))

/-- `row.get(k, d)`: first binding of `k`, or the default `d`. -/
def rget (r : Record) (k d : String) : String :=
  match List.lookup k r with
  | some v => v
  | none => d

/-- `dict[k] = v` semantics: update the existing binding in place, else append. -/
def assocSet (k v : String) : List (String × String) → List (String × String)
  | [] => [(k, v)]
  | (k', v') :: rest => if k' = k then (k, v) :: rest else (k', v') :: assocSet k v rest

/-- The row-cleaning loop of `read_csv` (lines 200–207): for each (key, value)
with a non-empty key, bind the trimmed key to the trimmed value. -/
def cleanRow (r : Record) : Record :=
  r.foldl (fun acc kv => if kv.1 ≠ "" then assocSet (pyStrip kv.1) (pyStrip kv.2) acc else acc) []

/-- The record-cleaning stage of `read_csv`: clean every row, keep the
non-empty ones (`if clean_row: rows.append(clean_row)`). -/
def clean_rows (rs : List Record) : List Record :=
  (rs.map cleanRow).filter (fun r => r ≠ [])

/-- The date key of a record: `row.get('Date', '')` (line 240). -/
def dateKey (r : Record) : String := rget r "Date" ""

/-- The exercise key of a record: `row.get('Exercise', '').strip()` (line 272). -/
def exKey (r : Record) : String := pyStrip (rget r "Exercise" "")

/-! ### Timestamp parsing (`parse_datetime`, lines 29–40) -/

/-- A parsed calendar datetime (year ≥ 1 guaranteed by the parsers). -/
structure CivilTime where
  year : Nat
  month : Nat
  day : Nat
  hour : Nat
  minute : Nat
deriving Repr, DecidableEq, Inhabited

/-- Gregorian leap-year test. -/
def isLeap (y : Nat) : Bool := y % 4 = 0 && (y % 100 ≠ 0 || y % 400 = 0)

/-- Number of days in a month. -/
def daysInMonth (y m : Nat) : Nat :=
  if m = 2 then (if isLeap y then 29 else 28)
  else if m = 4 ∨ m = 6 ∨ m = 9 ∨ m = 11 then 30
  else 31

/-- Days from 0000-03-01 to the given civil date (standard era/year-of-era
computation); subtracting 719468 yields days since the Unix epoch. -/
def daysFromCivilNat (y m d : Nat) : Nat :=
  let y' := if m ≤ 2 then y - 1 else y
  let era := y' / 400
  let yoe := y' % 400
  let mp := (m + 9) % 12
  let doy := (153 * mp + 2) / 5 + d - 1
  let doe := yoe * 365 + yoe / 4 - yoe / 100 + doy
  era * 146097 + doe

/-- `int(dt.timestamp() * 1000)`: epoch milliseconds of a civil datetime
(modelled at UTC offset zero). -/
def toMillis (c : CivilTime) : Int :=
  ((daysFromCivilNat c.year c.month c.day : Int) - 719468) * 86400000
    + (c.hour * 3600 + c.minute * 60) * 1000

/-- Value of a digit list, most significant first. -/
def digitsToNat (ds : List Char) : Nat :=
  ds.foldl (fun a c => a * 10 + (c.toNat - 48)) 0

/-- Range validation shared by both datetime formats. -/
def validCivil (c : CivilTime) : Bool :=
  1 ≤ c.year && 1 ≤ c.month && c.month ≤ 12 && 1 ≤ c.day &&
    c.day ≤ daysInMonth c.year c.month && c.hour ≤ 23 && c.minute ≤ 59

/-- `datetime.strptime(s, "%d/%m/%Y %H:%M")`: one or two digits for day,
month, hour and minute, exactly four for the year, exact literal
separators, full-string match, calendar-validated. -/
def parseDMY (s : String) : Option CivilTime :=
  let cs := s.toList
  let p1 := cs.span Char.isDigit
  match p1.2 with
  | '/' :: r2 =>
    let p2 := r2.span Char.isDigit
    match p2.2 with
    | '/' :: r4 =>
      let p3 := r4.span Char.isDigit
      match p3.2 with
      | ' ' :: r6 =>
        let p4 := r6.span Char.isDigit
        match p4.2 with
        | ':' :: r8 =>
          let p5 := r8.span Char.isDigit
          if p5.2 = [] && 1 ≤ p1.1.length && p1.1.length ≤ 2 &&
              1 ≤ p2.1.length && p2.1.length ≤ 2 && p3.1.length = 4 &&
              1 ≤ p4.1.length && p4.1.length ≤ 2 && 1 ≤ p5.1.length && p5.1.length ≤ 2 then
            let c : CivilTime :=
              ⟨digitsToNat p3.1, digitsToNat p2.1, digitsToNat p1.1,
               digitsToNat p4.1, digitsToNat p5.1⟩
            if validCivil c then some c else none
          else none
        | _ => none
      | _ => none
    | _ => none
  | _ => none

/-- `datetime.strptime(s, "%Y-%m-%d %H:%M")`: the ISO fallback format. -/
def parseISO (s : String) : Option CivilTime :=
  let cs := s.toList
  let p1 := cs.span Char.isDigit
  match p1.2 with
  | '-' :: r2 =>
    let p2 := r2.span Char.isDigit
    match p2.2 with
    | '-' :: r4 =>
      let p3 := r4.span Char.isDigit
      match p3.2 with
      | ' ' :: r6 =>
        let p4 := r6.span Char.isDigit
        match p4.2 with
        | ':' :: r8 =>
          let p5 := r8.span Char.isDigit
          if p5.2 = [] && p1.1.length = 4 && 1 ≤ p2.1.length && p2.1.length ≤ 2 &&
              1 ≤ p3.1.length && p3.1.length ≤ 2 &&
              1 ≤ p4.1.length && p4.1.length ≤ 2 && 1 ≤ p5.1.length && p5.1.length ≤ 2 then
            let c : CivilTime :=
              ⟨digitsToNat p1.1, digitsToNat p2.1, digitsToNat p3.1,
               digitsToNat p4.1, digitsToNat p5.1⟩
            if validCivil c then some c else none
          else none
        | _ => none
      | _ => none
    | _ => none
  | _ => none

/-- `parse_datetime(date_str, time_str)` (lines 29–40): strict `%d/%m/%Y %H:%M`
attempt, then `%Y-%m-%d %H:%M`, then fall back to the current wall-clock
time (`now`, passed explicitly here). -/
def parse_datetime (now : Int) (date_str time_str : String) : Int :=
  match parseDMY (date_str ++ " " ++ time_str) with
  | some c => toMillis c
  | none =>
    match parseISO (date_str ++ " " ++ time_str) with
    | some c => toMillis c
    | none => now

/-! ### Numeric field parsing (`float()` / `int()`) -/

/-- `int(s)` on an already-stripped string: optional sign, then a non-empty
run of digits. -/
def parseInt? (s : String) : Option Int :=
  match s.toList with
  | [] => none
  | '+' :: rest => if rest ≠ [] && rest.all Char.isDigit then some (digitsToNat rest) else none
  | '-' :: rest => if rest ≠ [] && rest.all Char.isDigit then some (-(digitsToNat rest : Int)) else none
  | cs => if cs.all Char.isDigit then some (digitsToNat cs) else none

/-- The exact value of a parsed `float()` literal, kept as a scaled integer
`num / den` with `den` a power of ten. None of the verified properties
compare these values numerically, so no normalization is performed. -/
structure DecValue where
  num : Int
  den : Nat
deriving Repr, DecidableEq, Inhabited

/-- Apply an exponent suffix to a scaled integer. -/
def applyExp (v : Nat × Nat) (negExp : Bool) (e : Nat) : DecValue :=
  if negExp then { num := v.1, den := v.2 * 10 ^ e }
  else { num := v.1 * 10 ^ e, den := v.2 }

/-- Exponent suffix of a `float()` literal: optional sign then digits. -/
def parseExp (v : Nat × Nat) : List Char → Option DecValue
  | '+' :: ds => if ds ≠ [] && ds.all Char.isDigit then some (applyExp v false (digitsToNat ds)) else none
  | '-' :: ds => if ds ≠ [] && ds.all Char.isDigit then some (applyExp v true (digitsToNat ds)) else none
  | ds => if ds ≠ [] && ds.all Char.isDigit then some (applyExp v false (digitsToNat ds)) else none

/-- Mantissa-and-exponent reading used by `parseFloat?`: digits, an optional
dot with optional further digits (at least one digit overall), then an
optional exponent part. -/
def parseMantissa (cs : List Char) : Option DecValue :=
  let ip := cs.span Char.isDigit
  let core : Option (Nat × Nat × List Char) :=
    match ip.2 with
    | '.' :: r =>
      let fp := r.span Char.isDigit
      if ip.1.length + fp.1.length = 0 then none
      else some (digitsToNat ip.1 * 10 ^ fp.1.length + digitsToNat fp.1, 10 ^ fp.1.length, fp.2)
    | r => if ip.1.length = 0 then none else some (digitsToNat ip.1, 1, r)
  match core with
  | none => none
  | some (mant, den, rest) =>
    match rest with
    | [] => some { num := mant, den := den }
    | 'e' :: ex => parseExp (mant, den) ex
    | 'E' :: ex => parseExp (mant, den) ex
    | _ => none

/-- Negate a parsed float value. -/
def decNeg (v : DecValue) : DecValue := { v with num := -v.num }

/-- `float(s)` on an already-stripped string: optional sign, then a decimal
numeral with optional fraction and exponent. -/
def parseFloat? (s : String) : Option DecValue :=
  match s.toList with
  | '+' :: rest => parseMantissa rest
  | '-' :: rest => (parseMantissa rest).map decNeg
  | cs => parseMantissa cs

/-! ### Grouping, sorting, and small utilities -/

/-- Append `r` to the group keyed `k`, or start a new group at the end
(`defaultdict(list)` insertion order). -/
def insertGroup (k : String) (r : Record) :
    List (String × List Record) → List (String × List Record)
  | [] => [(k, [r])]
  | (k', g) :: rest =>
    if k' = k then (k', g ++ [r]) :: rest else (k', g) :: insertGroup k r rest

/-- Left-to-right grouping loop: process each record in order, appending it
to its key's group. -/
def groupByAux (key : Record → String) (acc : List (String × List Record)) :
    List Record → List (String × List Record)
  | [] => acc
  | r :: rs =>
    if key r = "" then groupByAux key acc rs
    else groupByAux key (insertGroup (key r) r acc) rs

/-- Group records by a string key, dropping records whose key is empty —
the shape of both `rows_by_date` (lines 238–242) and `exercises_for_day`
(lines 270–274): group keys appear in first-seen order, each group keeps
the original record order. -/
def groupBy (key : Record → String) (l : List Record) : List (String × List Record) :=
  groupByAux key [] l

/-- Insert a keyed group into a list kept in strictly descending key order. -/
def insertDesc (p : String × List Record) :
    List (String × List Record) → List (String × List Record)
  | [] => [p]
  | q :: rest => if pyStrLt q.1 p.1 then p :: q :: rest else q :: insertDesc p rest

/-- `sorted(keys, reverse=True)` over the date groups: descending
lexicographic order of the raw key strings. -/
def sortDesc : List (String × List Record) → List (String × List Record)
  | [] => []
  | p :: ps => insertDesc p (sortDesc ps)

/-- `min(...)` over a non-empty sequence of strings (Python keeps the
current value on ties). The `[]` case is never reached by the converter. -/
def listMin : List String → String
  | [] => ""
  | x :: xs => xs.foldl (fun a b => if pyStrLt b a then b else a) x

/-- `max(...)` over a non-empty sequence of strings. -/
def listMax : List String → String
  | [] => ""
  | x :: xs => xs.foldl (fun a b => if pyStrLt a b then b else a) x

/-- The list `[1, 2, …, n]`: the row ids of a table of `n` rows, in
insertion order (SQLite `INTEGER PRIMARY KEY` on a freshly created file). -/
def upTo : Nat → List Nat
  | 0 => []
  | n + 1 => upTo n ++ [n + 1]

/-! ### The entity tables and the conversion state -/

/-- A row of `exercises` as inserted at lines 281–284. -/
structure ExerciseRow where
  id : Nat
  uid : Nat
  name : String
  created_at : Int
deriving Repr, DecidableEq, Inhabited

/-- A row of `workouts` as inserted at lines 262–265. -/
structure WorkoutRow where
  id : Nat
  uid : Nat
  started_at : Int
  completed_at : Int
deriving Repr, DecidableEq, Inhabited

/-- A row of `workout_exercises` as inserted at lines 300–306. -/
structure WERow where
  id : Nat
  uid : Nat
  workout_id : Nat
  exercise_id : Nat
  order_index : Nat
  note : Option String
  performed_at : Int
  completed_at : Int
deriving Repr, DecidableEq, Inhabited

/-- A row of `sets` as inserted at lines 326–333. -/
structure SetRow where
  id : Nat
  uid : Nat
  workout_id : Nat
  exercise_id : Nat
  workout_exercise_id : Nat
  set_index : Nat
  weight_kg : Option DecValue
  reps : Option Int
  note : Option String
  performed_at : Int
  is_warmup : Bool
deriving Repr, DecidableEq, Inhabited

/-- The mutable state of `convert_csv_to_db`: the four populated tables and
the three identity maps, plus the uid-minting counter. -/
structure ConvState where
  exercisesTab : List ExerciseRow := []
  workoutsTab : List WorkoutRow := []
  weTab : List WERow := []
  setsTab : List SetRow := []
  exercisesMap : List (String × Nat) := []
  workoutsMap : List (String × Nat) := []
  weMap : List ((Nat × Nat) × Nat) := []
  uidCtr : Nat := 0
deriving Repr, DecidableEq, Inhabited

/-- The two fatal conditions of the script: `sys.exit(1)` on empty
extraction and the uncaught `ValueError` of a numeric parse. -/
inductive ConvError where
  | emptyExtraction
  | fieldParse
deriving Repr, DecidableEq, Inhabited

/-- The trimmed weight field of a record (line 318). -/
def weightStr (r : Record) : String := pyStrip (rget r "Weight" "")

/-- The trimmed reps field of a record (line 319). -/
def repsStr (r : Record) : String := pyStrip (rget r "# of Reps" "")

/-- `float(weight_str) if weight_str else None` (line 322), with the
uncaught `ValueError` as an error. -/
def setWeight (r : Record) : Except ConvError (Option DecValue) :=
  if weightStr r = "" then .ok none
  else
    match parseFloat? (weightStr r) with
    | some q => .ok (some q)
    | none => .error .fieldParse

/-- `int(reps_str) if reps_str else None` (line 323). -/
def setReps (r : Record) : Except ConvError (Option Int) :=
  if repsStr r = "" then .ok none
  else
    match parseInt? (repsStr r) with
    | some n => .ok (some n)
    | none => .error .fieldParse

/-- The `sets` row built from one record (lines 313–333): `set_index` is the
running per-exercise counter, `performed_at` is parsed from the record's
own date and time fields, blank note becomes NULL, `is_warmup` is false. -/
def setRowOf (wid eid weid : Nat) (ds : String) (now : Int) (idx rowid uid : Nat)
    (r : Record) : Except ConvError SetRow :=
  match setWeight r with
  | .error e => .error e
  | .ok w =>
    match setReps r with
    | .error e => .error e
    | .ok rp =>
      let note := pyStrip (rget r "Notes" "")
      .ok { id := rowid, uid := uid, workout_id := wid, exercise_id := eid,
            workout_exercise_id := weid, set_index := idx, weight_kg := w, reps := rp,
            note := if note = "" then none else some note,
            performed_at := parse_datetime now (rget r "Date" ds) (rget r "Time" "00:00"),
            is_warmup := false }

/-- The per-exercise set loop (lines 313–335). -/
def processSets (st : ConvState) (wid eid weid : Nat) (ds : String) (now : Int)
    (idx : Nat) : List Record → Except ConvError ConvState
  | [] => .ok st
  | r :: rs =>
    match setRowOf wid eid weid ds now idx (st.setsTab.length + 1) st.uidCtr r with
    | .error e => .error e
    | .ok srow =>
      processSets { st with setsTab := st.setsTab ++ [srow], uidCtr := st.uidCtr + 1 }
        wid eid weid ds now (idx + 1) rs

/-- Lines 279–287: look the exercise name up in the global identity map,
creating the exercise row (with `created_at` = the day\'s workout start)
on first encounter. Returns the updated state and the exercise id. -/
def resolveExercise (st : ConvState) (name : String) (wstart : Int) : ConvState × Nat :=
  match List.lookup name st.exercisesMap with
  | some i => (st, i)
  | none =>
    let eid := st.exercisesTab.length + 1
    ({ st with
        exercisesTab := st.exercisesTab ++
          [{ id := eid, uid := st.uidCtr, name := name, created_at := wstart }],
        exercisesMap := st.exercisesMap ++ [(name, eid)],
        uidCtr := st.uidCtr + 1 }, eid)

/-- Lines 290–310: create the workout-exercise link for a fresh
(workout, exercise) pair — note and timestamps taken from the subgroup\'s
first record, `order_index` from the running counter, which is then
incremented; a pair already seen reuses the stored id and leaves the
counter alone. Returns the updated state, the link id and the counter. -/
def resolveWE (st : ConvState) (wid eid : Nat) (grows : List Record) (ds : String)
    (now : Int) (order : Nat) : ConvState × Nat × Nat :=
  match List.lookup (wid, eid) st.weMap with
  | some i => (st, i, order)
  | none =>
    let weid := st.weTab.length + 1
    let first := grows.headD []
    let performed_at := parse_datetime now (rget first "Date" ds) (rget first "Time" "00:00")
    let first_note := pyStrip (rget first "Notes" "")
    ({ st with
        weTab := st.weTab ++
          [{ id := weid, uid := st.uidCtr, workout_id := wid, exercise_id := eid,
             order_index := order,
             note := if first_note = "" then none else some first_note,
             performed_at := performed_at, completed_at := performed_at }],
        weMap := st.weMap ++ [((wid, eid), weid)],
        uidCtr := st.uidCtr + 1 }, weid, order + 1)

/-- The per-day exercise-group loop (lines 277–335): resolve the exercise,
resolve the workout-exercise link, then insert the subgroup\'s sets. -/
def processExGroups (st : ConvState) (wid : Nat) (wstart : Int) (ds : String)
    (now : Int) (order : Nat) :
    List (String × List Record) → Except ConvError ConvState
  | [] => .ok st
  | (name, grows) :: rest =>
    let p1 := resolveExercise st name wstart
    let p2 := resolveWE p1.1 wid p1.2 grows ds now order
    match processSets p2.1 wid p1.2 p2.2.1 ds now 0 grows with
    | .error e => .error e
    | .ok st3 => processExGroups st3 wid wstart ds now p2.2.2 rest

/-- One date group (lines 250–335): lexicographic min/max of the day's time
fields (default `"00:00"` for a missing field), create the workout, then
process the day's exercise groups with the order counter reset to zero. -/
def processDay (st : ConvState) (ds : String) (g : List Record) (now : Int) :
    Except ConvError ConvState :=
  let times := g.map (fun r => rget r "Time" "00:00")
  let wstart := parse_datetime now ds (listMin times)
  let wend := parse_datetime now ds (listMax times)
  let wid := st.workoutsTab.length + 1
  let st1 : ConvState :=
    { st with
        workoutsTab := st.workoutsTab ++
          [{ id := wid, uid := st.uidCtr, started_at := wstart, completed_at := wend }],
        workoutsMap := st.workoutsMap ++ [(ds, wid)],
        uidCtr := st.uidCtr + 1 }
  processExGroups st1 wid wstart ds now 0 (groupBy exKey g)

/-- The date-group loop (line 250). -/
def processDays (st : ConvState) (now : Int) :
    List (String × List Record) → Except ConvError ConvState
  | [] => .ok st
  | (d, g) :: rest =>
    match processDay st d g now with
    | .error e => .error e
    | .ok st' => processDays st' now rest

/-- `convert_csv_to_db` from the extracted row list onward (lines 218–335):
exit on zero rows, group by date, process the groups in descending key
order. -/
def convert_rows (rows : List Record) (now : Int) : Except ConvError ConvState :=
  if rows = [] then .error .emptyExtraction
  else processDays {} now (sortDesc (groupBy dateKey rows))

/-- The whole conversion on raw (post-tokenizer) rows: the cleaning stage of
`read_csv` followed by the hierarchy build. -/
def convert_csv_to_db (raw : List Record) (now : Int) : Except ConvError ConvState :=
  convert_rows (clean_rows raw) now

/-- The observable state of the output path across a run. -/
inductive FileState where
  /-- No file at the output path. -/
  | absent
  /-- A pre-existing file, tagged so distinct contents stay distinct. -/
  | preexisting (tag : Nat)
  /-- A fully written backup produced by this run. -/
  | written (st : ConvState)
  /-- A freshly recreated file left incomplete by a mid-run fatal error. -/
  | incomplete
deriving Repr, DecidableEq, Inhabited

/-- The run as seen from the filesystem (lines 212–346): on empty extraction
the script exits with status 1 *before* `db_path.unlink()`, leaving the
output path untouched; otherwise the output is deleted, recreated and
populated — completely on success (exit 0), partially on a numeric parse
error (exit 1). -/
def convert_run (pre : FileState) (raw : List Record) (now : Int) : Nat × FileState :=
  let rows := clean_rows raw
  if rows = [] then (1, pre)
  else
    match convert_rows rows now with
    | .ok st => (0, .written st)
    | .error _ => (1, .incomplete)

/-- The final state of a successful conversion (used to phrase closed
witness statements). -/
def outOf (raw : List Record) (now : Int) : ConvState :=
  match convert_csv_to_db raw now with
  | .ok st => st
  | .error _ => {}

/-- Name of the exercise row carrying a given id, if any. -/
def lookupName (tab : List ExerciseRow) (i : Nat) : Option String :=
  (tab.find? (fun e => e.id = i)).map (fun e => e.name)

/-! ## Toolkit: order properties of the string comparison -/

theorem char_eq_of_toNat_eq {x y : Char} (h : x.toNat = y.toNat) : x = y :=
  Char.eq_of_val_eq (UInt32.eq_of_val_eq (Fin.eq_of_val_eq h))

theorem listCharLt_trans {a b c : List Char} (h1 : listCharLt a b = true)
    (h2 : listCharLt b c = true) : listCharLt a c = true := by
  induction a generalizing b c with
  | nil =>
    cases c with
    | nil =>
      cases b with
      | nil => simp [listCharLt] at h1
      | cons y ys => simp [listCharLt] at h2
    | cons z zs => simp [listCharLt]
  | cons x xs ih =>
    cases b with
    | nil => simp [listCharLt] at h1
    | cons y ys =>
      cases c with
      | nil => simp [listCharLt] at h2
      | cons z zs =>
        simp only [listCharLt] at h1 h2 ⊢
        by_cases hxy : x.toNat < y.toNat
        · by_cases hyz : y.toNat < z.toNat
          · rw [if_pos (Nat.lt_trans hxy hyz)]
          · by_cases hzy : z.toNat < y.toNat
            · rw [if_neg hyz, if_pos hzy] at h2
              simp at h2
            · have : y.toNat = z.toNat := by omega
              rw [if_pos (this ▸ hxy)]
        · by_cases hyx : y.toNat < x.toNat
          · rw [if_neg hxy, if_pos hyx] at h1
            simp at h1
          · have hxy' : x.toNat = y.toNat := by omega
            rw [if_neg hxy, if_neg hyx] at h1
            by_cases hyz : y.toNat < z.toNat
            · rw [if_pos (hxy' ▸ hyz)]
            · by_cases hzy : z.toNat < y.toNat
              · rw [if_neg hyz, if_pos hzy] at h2
                simp at h2
              · have h3 : ¬ x.toNat < z.toNat := by omega
                have h4 : ¬ z.toNat < x.toNat := by omega
                rw [if_neg h3, if_neg h4]
                rw [if_neg hyz, if_neg hzy] at h2
                exact ih h1 h2

theorem listCharLt_total {a b : List Char} (h1 : listCharLt a b = false)
    (h2 : listCharLt b a = false) : a = b := by
  induction a generalizing b with
  | nil =>
    cases b with
    | nil => rfl
    | cons y ys => simp [listCharLt] at h1
  | cons x xs ih =>
    cases b with
    | nil => simp [listCharLt] at h2
    | cons y ys =>
      simp only [listCharLt] at h1 h2
      by_cases hxy : x.toNat < y.toNat
      · rw [if_pos hxy] at h1
        simp at h1
      · by_cases hyx : y.toNat < x.toNat
        · rw [if_pos hyx] at h2
          simp at h2
        · have hx : x = y := char_eq_of_toNat_eq (by omega)
          rw [if_neg hxy, if_neg hyx] at h1
          rw [if_neg hyx, if_neg hxy] at h2
          rw [hx, ih h1 h2]

theorem pyStrLt_trans {a b c : String} (h1 : pyStrLt a b = true)
    (h2 : pyStrLt b c = true) : pyStrLt a c = true :=
  listCharLt_trans h1 h2

theorem pyStrLt_total {a b : String} (h1 : pyStrLt a b = false)
    (h2 : pyStrLt b a = false) : a = b := by
  cases a with
  | mk da =>
    cases b with
    | mk db =>
      have : da = db := listCharLt_total h1 h2
      rw [this]

/-! ## Toolkit: sequential row ids -/

theorem mem_upTo {k n : Nat} : k ∈ upTo n ↔ 1 ≤ k ∧ k ≤ n := by
  induction n with
  | zero =>
    simp only [upTo, List.not_mem_nil, false_iff]
    omega
  | succ m ih =>
    simp only [upTo, List.mem_append, List.mem_singleton, ih]
    omega

theorem nodup_upTo (n : Nat) : (upTo n).Nodup := by
  induction n with
  | zero => simp [upTo]
  | succ m ih =>
    simp only [upTo]
    refine List.Nodup.append ih (List.nodup_singleton _) ?_
    intro a ha hb
    simp only [List.mem_singleton] at hb
    subst hb
    have := mem_upTo.mp ha
    omega

theorem length_upTo (n : Nat) : (upTo n).length = n := by
  induction n with
  | zero => rfl
  | succ m ih => simp [upTo, ih]

theorem upTo_eq_range_map (n : Nat) : upTo n = (List.range n).map (· + 1) := by
  induction n with
  | zero => rfl
  | succ m ih => simp [upTo, List.range_succ, ih]

/-! ## Toolkit: association list lemmas -/

theorem lookup_mem {α β : Type} [BEq α] [LawfulBEq α] {l : List (α × β)} {k : α} {v : β}
    (h : List.lookup k l = some v) : (k, v) ∈ l := by
  induction l with
  | nil => simp [List.lookup] at h
  | cons p rest ih =>
    cases p with
    | mk k' v' =>
      simp only [List.lookup] at h
      split at h
      · cases h
        rename_i hbeq
        have : k = k' := eq_of_beq hbeq
        subst this
        exact List.mem_cons_self _ _
      · exact List.mem_cons_of_mem _ (ih h)

theorem mem_lookup_of_nodup {α β : Type} [BEq α] [LawfulBEq α] {l : List (α × β)} {k : α} {v : β}
    (hn : (l.map Prod.fst).Nodup) (h : (k, v) ∈ l) : List.lookup k l = some v := by
  induction l with
  | nil => simp at h
  | cons p rest ih =>
    cases p with
    | mk k' v' =>
      simp only [List.map_cons, List.nodup_cons] at hn
      rcases List.mem_cons.mp h with heq | hmem
      · cases heq
        simp [List.lookup]
      · have hk : k ≠ k' := by
          intro he
          subst he
          exact hn.1 (List.mem_map.mpr ⟨(k, v), hmem, rfl⟩)
        simp only [List.lookup]
        split
        · rename_i hbeq
          exact absurd (eq_of_beq hbeq) hk
        · exact ih hn.2 hmem

theorem lookup_eq_none_of_not_mem {α β : Type} [BEq α] [LawfulBEq α] {l : List (α × β)} {k : α}
    (h : ∀ p ∈ l, p.1 ≠ k) : List.lookup k l = none := by
  induction l with
  | nil => rfl
  | cons p rest ih =>
    cases p with
    | mk k' v' =>
      simp only [List.lookup]
      split
      · rename_i hbeq
        exact absurd (eq_of_beq hbeq).symm (h (k', v') (List.mem_cons_self _ _))
      · exact ih (fun q hq => h q (List.mem_cons_of_mem _ hq))

theorem lookup_append_some {α β : Type} [BEq α] {l l' : List (α × β)} {k : α} {v : β}
    (h : List.lookup k l = some v) : List.lookup k (l ++ l') = some v := by
  induction l with
  | nil => simp [List.lookup] at h
  | cons p rest ih =>
    cases p with
    | mk k' v' =>
      simp only [List.lookup, List.cons_append] at h ⊢
      split at h
      · exact h
      · exact ih h

theorem find?_append_some {α : Type} {l l' : List α} {p : α → Bool} {x : α}
    (h : l.find? p = some x) : (l ++ l').find? p = some x := by
  rw [List.find?_append, h]
  rfl

/-! ## Toolkit: grouping lemmas -/

theorem insertGroup_keys (k : String) (r : Record) (gl : List (String × List Record)) :
    (insertGroup k r gl).map Prod.fst =
      if k ∈ gl.map Prod.fst then gl.map Prod.fst else gl.map Prod.fst ++ [k] := by
  induction gl with
  | nil => simp [insertGroup]
  | cons p rest ih =>
    cases p with
    | mk k' g =>
      simp only [insertGroup]
      by_cases hk : k' = k
      · subst hk
        simp
      · rw [if_neg hk]
        simp only [List.map_cons, List.mem_cons]
        rw [ih]
        by_cases hmem : k ∈ rest.map Prod.fst
        · rw [if_pos hmem, if_pos (Or.inr hmem)]
        · rw [if_neg hmem, if_neg ?_]
          · simp
          · rintro (h | h)
            · exact hk h.symm
            · exact hmem h

theorem insertGroup_fst_mem {k : String} {r : Record} {gl : List (String × List Record)}
    {p : String × List Record} (h : p ∈ insertGroup k r gl) : p.1 = k ∨ p ∈ gl := by
  induction gl with
  | nil =>
    simp only [insertGroup, List.mem_singleton] at h
    subst h
    exact Or.inl rfl
  | cons q rest ih =>
    cases q with
    | mk k' g =>
      simp only [insertGroup] at h
      by_cases hk : k' = k
      · rw [if_pos hk] at h
        rcases List.mem_cons.mp h with heq | hmem
        · subst heq
          exact Or.inl hk
        · exact Or.inr (List.mem_cons_of_mem _ hmem)
      · rw [if_neg hk] at h
        rcases List.mem_cons.mp h with heq | hmem
        · subst heq
          exact Or.inr (List.mem_cons_self _ _)
        · rcases ih hmem with h1 | h1
          · exact Or.inl h1
          · exact Or.inr (List.mem_cons_of_mem _ h1)

theorem insertGroup_snd_ne {k : String} {r : Record} {gl : List (String × List Record)}
    (hgl : ∀ p ∈ gl, p.2 ≠ []) : ∀ p ∈ insertGroup k r gl, p.2 ≠ [] := by
  induction gl with
  | nil =>
    intro p hp
    simp only [insertGroup, List.mem_singleton] at hp
    subst hp
    simp
  | cons q rest ih =>
    cases q with
    | mk k' g =>
      intro p hp
      simp only [insertGroup] at hp
      by_cases hk : k' = k
      · rw [if_pos hk] at hp
        rcases List.mem_cons.mp hp with heq | hmem
        · subst heq
          simp
        · exact hgl _ (List.mem_cons_of_mem _ hmem)
      · rw [if_neg hk] at hp
        rcases List.mem_cons.mp hp with heq | hmem
        · subst heq
          exact hgl _ (List.mem_cons_self _ _)
        · exact ih (fun q hq => hgl q (List.mem_cons_of_mem _ hq)) _ hmem

theorem insertGroup_lookup_self (k : String) (r : Record) (gl : List (String × List Record)) :
    List.lookup k (insertGroup k r gl) = some (((List.lookup k gl).getD []) ++ [r]) := by
  induction gl with
  | nil => simp [insertGroup, List.lookup]
  | cons p rest ih =>
    cases p with
    | mk k' g =>
      simp only [insertGroup]
      by_cases hk : k' = k
      · subst hk
        simp [List.lookup]
      · rw [if_neg hk]
        simp only [List.lookup]
        have : (k == k') = false := beq_eq_false_iff_ne.mpr (fun h => hk h.symm)
        rw [this]
        simpa using ih

theorem insertGroup_lookup_other {k k' : String} (hne : k' ≠ k) (r : Record)
    (gl : List (String × List Record)) :
    List.lookup k' (insertGroup k r gl) = List.lookup k' gl := by
  induction gl with
  | nil =>
    simp only [insertGroup, List.lookup]
    rw [beq_eq_false_iff_ne.mpr hne]
  | cons p rest ih =>
    cases p with
    | mk k'' g =>
      simp only [insertGroup]
      by_cases hk : k'' = k
      · subst hk
        simp only [List.lookup]
        rw [beq_eq_false_iff_ne.mpr hne]
      · rw [if_neg hk]
        simp only [List.lookup]
        by_cases h2 : k' = k''
        · subst h2
          simp
        · rw [beq_eq_false_iff_ne.mpr h2]
          exact ih

theorem insertGroup_countP_sum (k : String) (r : Record) (gl : List (String × List Record))
    (q : Record → Bool) :
    ((insertGroup k r gl).map (fun p => p.2.countP q)).sum =
      ((gl.map (fun p => p.2.countP q)).sum) + (if q r then 1 else 0) := by
  induction gl with
  | nil => simp [insertGroup, List.countP_cons]
  | cons p rest ih =>
    cases p with
    | mk k' g =>
      simp only [insertGroup]
      by_cases hk : k' = k
      · rw [if_pos hk]
        simp only [List.map_cons, List.sum_cons, List.countP_append]
        simp [List.countP_cons]
        omega
      · rw [if_neg hk]
        simp only [List.map_cons, List.sum_cons, ih]
        omega

theorem groupByAux_keys_nodup (key : Record → String) (l : List Record)
    (acc : List (String × List Record)) (h : (acc.map Prod.fst).Nodup) :
    ((groupByAux key acc l).map Prod.fst).Nodup := by
  induction l generalizing acc with
  | nil => exact h
  | cons r rs ih =>
    simp only [groupByAux]
    by_cases hk : key r = ""
    · rw [if_pos hk]
      exact ih acc h
    · rw [if_neg hk]
      refine ih _ ?_
      rw [insertGroup_keys]
      by_cases hmem : key r ∈ acc.map Prod.fst
      · rwa [if_pos hmem]
      · rw [if_neg hmem]
        refine List.Nodup.append h (List.nodup_singleton _) ?_
        intro a ha hb
        simp only [List.mem_singleton] at hb
        subst hb
        exact hmem ha

theorem groupByAux_keys_mem (key : Record → String) (l : List Record)
    (acc : List (String × List Record)) (k : String) :
    k ∈ (groupByAux key acc l).map Prod.fst ↔
      k ∈ acc.map Prod.fst ∨ (k ≠ "" ∧ ∃ r ∈ l, key r = k) := by
  induction l generalizing acc with
  | nil => simp [groupByAux]
  | cons r rs ih =>
    simp only [groupByAux]
    by_cases hk : key r = ""
    · rw [if_pos hk, ih]
      constructor
      · rintro (h | ⟨hne, r', hr', hkey⟩)
        · exact Or.inl h
        · exact Or.inr ⟨hne, r', List.mem_cons_of_mem _ hr', hkey⟩
      · rintro (h | ⟨hne, r', hr', hkey⟩)
        · exact Or.inl h
        · rcases List.mem_cons.mp hr' with heq | hmem
          · subst heq
            exact absurd (hkey.symm.trans hk) hne
          · exact Or.inr ⟨hne, r', hmem, hkey⟩
    · rw [if_neg hk, ih]
      rw [insertGroup_keys]
      by_cases hmem : key r ∈ acc.map Prod.fst
      · rw [if_pos hmem]
        constructor
        · rintro (h | ⟨hne, r', hr', hkey⟩)
          · exact Or.inl h
          · exact Or.inr ⟨hne, r', List.mem_cons_of_mem _ hr', hkey⟩
        · rintro (h | ⟨hne, r', hr', hkey⟩)
          · exact Or.inl h
          · rcases List.mem_cons.mp hr' with heq | hmem'
            · subst heq
              exact Or.inl (hkey ▸ hmem)
            · exact Or.inr ⟨hne, r', hmem', hkey⟩
      · rw [if_neg hmem]
        simp only [List.mem_append, List.mem_singleton]
        constructor
        · rintro ((h | h) | ⟨hne, r', hr', hkey⟩)
          · exact Or.inl h
          · exact Or.inr ⟨h ▸ hk, r, List.mem_cons_self _ _, h.symm⟩
          · exact Or.inr ⟨hne, r', List.mem_cons_of_mem _ hr', hkey⟩
        · rintro (h | ⟨hne, r', hr', hkey⟩)
          · exact Or.inl (Or.inl h)
          · rcases List.mem_cons.mp hr' with heq | hmem'
            · subst heq
              exact Or.inl (Or.inr hkey.symm)
            · exact Or.inr ⟨hne, r', hmem', hkey⟩

theorem groupByAux_fst_prop (key : Record → String) (l : List Record)
    (acc : List (String × List Record)) (h : ∀ p ∈ acc, p.1 ≠ "") :
    ∀ p ∈ groupByAux key acc l, p.1 ≠ "" := by
  induction l generalizing acc with
  | nil => exact h
  | cons r rs ih =>
    simp only [groupByAux]
    by_cases hk : key r = ""
    · rw [if_pos hk]
      exact ih acc h
    · rw [if_neg hk]
      refine ih _ ?_
      intro p hp
      rcases insertGroup_fst_mem hp with h1 | h1
      · rw [h1]
        exact hk
      · exact h p h1

theorem groupByAux_snd_prop (key : Record → String) (l : List Record)
    (acc : List (String × List Record)) (h : ∀ p ∈ acc, p.2 ≠ []) :
    ∀ p ∈ groupByAux key acc l, p.2 ≠ [] := by
  induction l generalizing acc with
  | nil => exact h
  | cons r rs ih =>
    simp only [groupByAux]
    by_cases hk : key r = ""
    · rw [if_pos hk]
      exact ih acc h
    · rw [if_neg hk]
      exact ih _ (insertGroup_snd_ne h)

theorem groupByAux_lookup_some (key : Record → String) (l : List Record)
    (acc : List (String × List Record)) (k : String) (g : List Record)
    (hk0 : k ≠ "") (h : List.lookup k acc = some g) :
    List.lookup k (groupByAux key acc l) = some (g ++ l.filter (fun r => key r == k)) := by
  induction l generalizing acc g with
  | nil => simpa [groupByAux]
  | cons r rs ih =>
    simp only [groupByAux]
    by_cases hkr : (key r == k) = true
    · have hkey : key r = k := eq_of_beq hkr
      have hfil : List.filter (fun r => key r == k) (r :: rs) =
          r :: List.filter (fun r => key r == k) rs := by
        simp [List.filter_cons, hkr]
      have hk : ¬ key r = "" := fun he => hk0 (hkey ▸ he)
      rw [if_neg hk, hfil]
      have h2 : List.lookup k (insertGroup (key r) r acc) = some (g ++ [r]) := by
        rw [hkey, insertGroup_lookup_self, h]
        rfl
      rw [ih _ _ h2]
      simp
    · have hkey : key r ≠ k := by simpa using hkr
      have hfil : List.filter (fun r => key r == k) (r :: rs) =
          List.filter (fun r => key r == k) rs := by
        simp [List.filter_cons, hkr]
      rw [hfil]
      by_cases hk : key r = ""
      · rw [if_pos hk]
        exact ih acc g h
      · rw [if_neg hk]
        have h2 : List.lookup k (insertGroup (key r) r acc) = some g := by
          rw [insertGroup_lookup_other (fun he => hkey he.symm), h]
        exact ih _ _ h2

theorem groupByAux_lookup_none (key : Record → String) (l : List Record)
    (acc : List (String × List Record)) (k : String)
    (hk0 : k ≠ "") (h : List.lookup k acc = none) :
    List.lookup k (groupByAux key acc l) =
      if l.filter (fun r => key r == k) = [] then none
      else some (l.filter (fun r => key r == k)) := by
  induction l generalizing acc with
  | nil => simp [groupByAux, h]
  | cons r rs ih =>
    simp only [groupByAux]
    by_cases hkr : (key r == k) = true
    · have hkey : key r = k := eq_of_beq hkr
      have hfil : List.filter (fun r => key r == k) (r :: rs) =
          r :: List.filter (fun r => key r == k) rs := by
        simp [List.filter_cons, hkr]
      have hk : ¬ key r = "" := fun he => hk0 (hkey ▸ he)
      rw [if_neg hk, hfil]
      have h2 : List.lookup k (insertGroup (key r) r acc) = some [r] := by
        rw [hkey, insertGroup_lookup_self, h]
        rfl
      rw [groupByAux_lookup_some key rs _ k [r] hk0 h2]
      rw [if_neg (by simp)]
      simp
    · have hkey : key r ≠ k := by simpa using hkr
      have hfil : List.filter (fun r => key r == k) (r :: rs) =
          List.filter (fun r => key r == k) rs := by
        simp [List.filter_cons, hkr]
      rw [hfil]
      by_cases hk : key r = ""
      · rw [if_pos hk]
        exact ih acc h
      · rw [if_neg hk]
        have h2 : List.lookup k (insertGroup (key r) r acc) = none := by
          rw [insertGroup_lookup_other (fun he => hkey he.symm), h]
        exact ih _ h2

theorem groupByAux_countP_sum (key : Record → String) (l : List Record)
    (acc : List (String × List Record)) (q : Record → Bool) :
    ((groupByAux key acc l).map (fun p => p.2.countP q)).sum =
      ((acc.map (fun p => p.2.countP q)).sum) + l.countP (fun r => !(key r == "") && q r) := by
  induction l generalizing acc with
  | nil => simp [groupByAux]
  | cons r rs ih =>
    simp only [groupByAux, List.countP_cons]
    by_cases hk : key r = ""
    · rw [if_pos hk]
      have : (!(key r == "") && q r) = false := by
        simp [hk]
      rw [ih acc, this]
      simp
    · rw [if_neg hk]
      rw [ih _]
      rw [insertGroup_countP_sum]
      have : (!(key r == "") && q r) = q r := by
        simp [hk]
      rw [this]
      by_cases hq : q r
      · simp [hq]
        omega
      · simp [hq]

theorem groupBy_keys_nodup (key : Record → String) (l : List Record) :
    ((groupBy key l).map Prod.fst).Nodup :=
  groupByAux_keys_nodup key l [] (by simp)

theorem groupBy_keys_mem (key : Record → String) (l : List Record) (k : String) :
    k ∈ (groupBy key l).map Prod.fst ↔ (k ≠ "" ∧ ∃ r ∈ l, key r = k) := by
  rw [groupBy, groupByAux_keys_mem]
  simp

theorem groupBy_fst_ne (key : Record → String) (l : List Record) :
    ∀ p ∈ groupBy key l, p.1 ≠ "" :=
  groupByAux_fst_prop key l [] (by simp)

theorem groupBy_snd_ne (key : Record → String) (l : List Record) :
    ∀ p ∈ groupBy key l, p.2 ≠ [] :=
  groupByAux_snd_prop key l [] (by simp)

theorem groupBy_lookup (key : Record → String) (l : List Record) (k : String) (hk0 : k ≠ "") :
    List.lookup k (groupBy key l) =
      if l.filter (fun r => key r == k) = [] then none
      else some (l.filter (fun r => key r == k)) :=
  groupByAux_lookup_none key l [] k hk0 rfl

/-- Each group of `groupBy` is exactly the filter of the input on its key. -/
theorem groupBy_mem_eq_filter {key : Record → String} {l : List Record}
    {p : String × List Record} (h : p ∈ groupBy key l) :
    p.2 = l.filter (fun r => key r == p.1) := by
  have hk0 : p.1 ≠ "" := groupBy_fst_ne key l p h
  have hlk : List.lookup p.1 (groupBy key l) = some p.2 := by
    apply mem_lookup_of_nodup (groupBy_keys_nodup key l)
    cases p
    exact h
  rw [groupBy_lookup key l p.1 hk0] at hlk
  by_cases hf : l.filter (fun r => key r == p.1) = []
  · rw [if_pos hf] at hlk
    cases hlk
  · rw [if_neg hf] at hlk
    exact (Option.some.injEq _ _ ▸ hlk).symm

theorem groupBy_mem_rec {key : Record → String} {l : List Record}
    {p : String × List Record} (h : p ∈ groupBy key l) :
    ∀ r ∈ p.2, key r = p.1 ∧ r ∈ l := by
  intro r hr
  rw [groupBy_mem_eq_filter h] at hr
  have := List.mem_filter.mp hr
  exact ⟨eq_of_beq this.2, this.1⟩

/-- A record with a non-empty key lands in the group of its key. -/
theorem groupBy_mem_of_rec {key : Record → String} {l : List Record} {r : Record}
    (hr : r ∈ l) (hk : key r ≠ "") :
    ∃ g, (key r, g) ∈ groupBy key l ∧ r ∈ g := by
  have hmem : key r ∈ (groupBy key l).map Prod.fst :=
    (groupBy_keys_mem key l (key r)).mpr ⟨hk, r, hr, rfl⟩
  rcases List.mem_map.mp hmem with ⟨p, hp, hfst⟩
  refine ⟨p.2, ?_, ?_⟩
  · cases p
    cases hfst
    exact hp
  · rw [groupBy_mem_eq_filter hp]
    refine List.mem_filter.mpr ⟨hr, ?_⟩
    rw [hfst]
    exact beq_self_eq_true _

theorem groupBy_countP_sum (key : Record → String) (l : List Record) (q : Record → Bool) :
    ((groupBy key l).map (fun p => p.2.countP q)).sum =
      l.countP (fun r => !(key r == "") && q r) := by
  have := groupByAux_countP_sum key l [] q
  simpa using this

/-! ## Toolkit: descending insertion sort -/

theorem insertDesc_perm (p : String × List Record) (l : List (String × List Record)) :
    List.Perm (insertDesc p l) (p :: l) := by
  induction l with
  | nil => exact List.Perm.refl _
  | cons q rest ih =>
    simp only [insertDesc]
    by_cases hlt : pyStrLt q.1 p.1 = true
    · rw [if_pos hlt]
    · rw [if_neg hlt]
      exact List.Perm.trans (ih.cons q) (List.Perm.swap p q rest)

theorem sortDesc_perm (l : List (String × List Record)) : List.Perm (sortDesc l) l := by
  induction l with
  | nil => exact List.Perm.refl _
  | cons p rest ih =>
    exact List.Perm.trans (insertDesc_perm p (sortDesc rest)) (ih.cons p)

theorem insertDesc_pairwise {p : String × List Record} {l : List (String × List Record)}
    (hp : l.Pairwise (fun a b => pyStrLt b.1 a.1 = true))
    (hne : ∀ q ∈ l, q.1 ≠ p.1) :
    (insertDesc p l).Pairwise (fun a b => pyStrLt b.1 a.1 = true) := by
  induction l with
  | nil => simp [insertDesc]
  | cons q rest ih =>
    rcases List.pairwise_cons.mp hp with ⟨hq, hrest⟩
    simp only [insertDesc]
    by_cases hlt : pyStrLt q.1 p.1 = true
    · rw [if_pos hlt]
      refine List.pairwise_cons.mpr ⟨?_, hp⟩
      intro x hx
      rcases List.mem_cons.mp hx with heq | hmem
      · subst heq
        exact hlt
      · exact pyStrLt_trans (hq x hmem) hlt
    · rw [if_neg hlt]
      have hlt' : pyStrLt p.1 q.1 = true := by
        cases hpq : pyStrLt p.1 q.1 with
        | true => rfl
        | false =>
          have hqp : pyStrLt q.1 p.1 = false := by
            cases hqp2 : pyStrLt q.1 p.1 with
            | false => rfl
            | true => exact absurd hqp2 hlt
          exact absurd (pyStrLt_total hpq hqp).symm (hne q (List.mem_cons_self _ _))
      refine List.pairwise_cons.mpr ⟨?_, ?_⟩
      · intro x hx
        rcases List.mem_cons.mp ((insertDesc_perm p rest).mem_iff.mp hx) with heq | hmem
        · subst heq
          exact hlt'
        · exact hq x hmem
      · exact ih hrest (fun x hx => hne x (List.mem_cons_of_mem _ hx))

theorem sortDesc_pairwise {l : List (String × List Record)}
    (h : (l.map Prod.fst).Nodup) :
    (sortDesc l).Pairwise (fun a b => pyStrLt b.1 a.1 = true) := by
  induction l with
  | nil => simp [sortDesc]
  | cons p rest ih =>
    simp only [List.map_cons, List.nodup_cons] at h
    refine insertDesc_pairwise (ih h.2) ?_
    intro q hq heq
    have : q ∈ rest := (sortDesc_perm rest).mem_iff.mp hq
    exact h.1 (List.mem_map.mpr ⟨q, this, heq⟩)

/-! ## The per-record numeric-field contract -/

/-- The weight rule of a produced set row: a blank weight field yields NULL,
a non-blank one yields exactly the parsed value. -/
def WeightOk (r : Record) (s : SetRow) : Prop :=
  (weightStr r = "" ∧ s.weight_kg = none) ∨
  (weightStr r ≠ "" ∧ ∃ q, parseFloat? (weightStr r) = some q ∧ s.weight_kg = some q)

/-- The reps rule of a produced set row. -/
def RepsOk (r : Record) (s : SetRow) : Prop :=
  (repsStr r = "" ∧ s.reps = none) ∨
  (repsStr r ≠ "" ∧ ∃ n, parseInt? (repsStr r) = some n ∧ s.reps = some n)

/-- A record whose weight or reps field is non-blank yet fails the numeric
parse — the condition that raises `ValueError` in the script. -/
def BadNumeric (r : Record) : Prop :=
  (weightStr r ≠ "" ∧ parseFloat? (weightStr r) = none) ∨
  (repsStr r ≠ "" ∧ parseInt? (repsStr r) = none)

theorem setRowOf_ok_fields {wid eid weid : Nat} {ds : String} {now : Int}
    {idx rowid uid : Nat} {r : Record} {s : SetRow}
    (h : setRowOf wid eid weid ds now idx rowid uid r = .ok s) :
    s.workout_id = wid ∧ s.exercise_id = eid ∧ s.workout_exercise_id = weid ∧
      s.set_index = idx ∧ WeightOk r s ∧ RepsOk r s := by
  unfold setRowOf at h
  unfold setWeight setReps at h
  by_cases hw : weightStr r = ""
  · rw [if_pos hw] at h
    by_cases hr : repsStr r = ""
    · rw [if_pos hr] at h
      cases h
      exact ⟨rfl, rfl, rfl, rfl, Or.inl ⟨hw, rfl⟩, Or.inl ⟨hr, rfl⟩⟩
    · rw [if_neg hr] at h
      cases hpi : parseInt? (repsStr r) with
      | none =>
        rw [hpi] at h
        cases h
      | some n =>
        rw [hpi] at h
        cases h
        exact ⟨rfl, rfl, rfl, rfl, Or.inl ⟨hw, rfl⟩, Or.inr ⟨hr, n, hpi, rfl⟩⟩
  · rw [if_neg hw] at h
    cases hpf : parseFloat? (weightStr r) with
    | none =>
      rw [hpf] at h
      cases h
    | some q =>
      rw [hpf] at h
      by_cases hr : repsStr r = ""
      · rw [if_pos hr] at h
        cases h
        exact ⟨rfl, rfl, rfl, rfl, Or.inr ⟨hw, q, hpf, rfl⟩, Or.inl ⟨hr, rfl⟩⟩
      · rw [if_neg hr] at h
        cases hpi : parseInt? (repsStr r) with
        | none =>
          rw [hpi] at h
          cases h
        | some n =>
          rw [hpi] at h
          cases h
          exact ⟨rfl, rfl, rfl, rfl, Or.inr ⟨hw, q, hpf, rfl⟩, Or.inr ⟨hr, n, hpi, rfl⟩⟩

theorem setRowOf_error_eq {wid eid weid : Nat} {ds : String} {now : Int}
    {idx rowid uid : Nat} {r : Record} {e : ConvError}
    (h : setRowOf wid eid weid ds now idx rowid uid r = .error e) : e = .fieldParse := by
  unfold setRowOf at h
  unfold setWeight setReps at h
  by_cases hw : weightStr r = ""
  · rw [if_pos hw] at h
    by_cases hr : repsStr r = ""
    · rw [if_pos hr] at h
      cases h
    · rw [if_neg hr] at h
      cases hpi : parseInt? (repsStr r) with
      | none =>
        rw [hpi] at h
        cases h
        rfl
      | some n =>
        rw [hpi] at h
        cases h
  · rw [if_neg hw] at h
    cases hpf : parseFloat? (weightStr r) with
    | none =>
      rw [hpf] at h
      cases h
      rfl
    | some q =>
      rw [hpf] at h
      by_cases hr : repsStr r = ""
      · rw [if_pos hr] at h
        cases h
      · rw [if_neg hr] at h
        cases hpi : parseInt? (repsStr r) with
        | none =>
          rw [hpi] at h
          cases h
          rfl
        | some n =>
          rw [hpi] at h
          cases h

theorem setRowOf_bad {wid eid weid : Nat} {ds : String} {now : Int}
    {idx rowid uid : Nat} {r : Record} (hb : BadNumeric r) :
    setRowOf wid eid weid ds now idx rowid uid r = .error .fieldParse := by
  unfold setRowOf
  unfold setWeight setReps
  rcases hb with ⟨hw, hpf⟩ | ⟨hr, hpi⟩
  · rw [if_neg hw, hpf]
  · rw [hpi]
    by_cases hw : weightStr r = ""
    · rw [if_pos hw, if_neg hr]
    · rw [if_neg hw]
      cases hpf : parseFloat? (weightStr r) with
      | none => rfl
      | some q => rw [if_neg hr]

/-! ## Behaviour of the set-insertion loop -/

theorem processSets_ok {rows : List Record} {st : ConvState} {wid eid weid : Nat}
    {ds : String} {now : Int} {idx : Nat} {st' : ConvState}
    (h : processSets st wid eid weid ds now idx rows = .ok st') :
    st'.exercisesTab = st.exercisesTab ∧ st'.workoutsTab = st.workoutsTab ∧
    st'.weTab = st.weTab ∧ st'.exercisesMap = st.exercisesMap ∧
    st'.workoutsMap = st.workoutsMap ∧ st'.weMap = st.weMap ∧
    ∃ l, st'.setsTab = st.setsTab ++ l ∧ l.length = rows.length ∧
      ∀ s ∈ l, s.workout_id = wid ∧ s.exercise_id = eid ∧ s.workout_exercise_id = weid ∧
        ∃ r ∈ rows, WeightOk r s ∧ RepsOk r s := by
  induction rows generalizing st idx with
  | nil =>
    simp only [processSets] at h
    cases h
    exact ⟨rfl, rfl, rfl, rfl, rfl, rfl, [], by simp, rfl, by simp⟩
  | cons r rs ih =>
    simp only [processSets] at h
    cases hrow : setRowOf wid eid weid ds now idx (st.setsTab.length + 1) st.uidCtr r with
    | error e =>
      rw [hrow] at h
      cases h
    | ok srow =>
      rw [hrow] at h
      obtain ⟨h1, h2, h3, h4, h5, h6, l, hl, hlen, hmem⟩ := ih h
      refine ⟨h1, h2, h3, h4, h5, h6, srow :: l, ?_, by simp [hlen], ?_⟩
      · rw [hl]
        simp
      · intro s hs
        rcases List.mem_cons.mp hs with heq | hmem'
        · subst heq
          obtain ⟨f1, f2, f3, _, f5, f6⟩ := setRowOf_ok_fields hrow
          exact ⟨f1, f2, f3, r, List.mem_cons_self _ _, f5, f6⟩
        · obtain ⟨g1, g2, g3, r', hr', g4⟩ := hmem s hmem'
          exact ⟨g1, g2, g3, r', List.mem_cons_of_mem _ hr', g4⟩

theorem processSets_error {rows : List Record} {st : ConvState} {wid eid weid : Nat}
    {ds : String} {now : Int} {idx : Nat} {e : ConvError}
    (h : processSets st wid eid weid ds now idx rows = .error e) : e = .fieldParse := by
  induction rows generalizing st idx with
  | nil => simp [processSets] at h
  | cons r rs ih =>
    simp only [processSets] at h
    cases hrow : setRowOf wid eid weid ds now idx (st.setsTab.length + 1) st.uidCtr r with
    | error e' =>
      rw [hrow] at h
      cases h
      exact setRowOf_error_eq hrow
    | ok srow =>
      rw [hrow] at h
      exact ih h

theorem processSets_bad {rows : List Record} {st : ConvState} {wid eid weid : Nat}
    {ds : String} {now : Int} {idx : Nat} {r : Record}
    (hr : r ∈ rows) (hb : BadNumeric r) :
    processSets st wid eid weid ds now idx rows = .error .fieldParse := by
  induction rows generalizing st idx with
  | nil => simp at hr
  | cons r0 rs ih =>
    simp only [processSets]
    rcases List.mem_cons.mp hr with heq | hmem
    · subst heq
      rw [setRowOf_bad hb]
    · cases hrow : setRowOf wid eid weid ds now idx (st.setsTab.length + 1) st.uidCtr r0 with
      | error e =>
        have he := setRowOf_error_eq hrow
        subst he
        rfl
      | ok srow =>
        exact ih hmem

/-! ## The conversion-state invariant -/

/-- Well-formedness of the conversion state: the three identity maps mirror
their tables, row ids are the positions 1..n of a freshly created SQLite
table, exercise names are unique, and every inserted row references an
existing workout. -/
structure StInv (st : ConvState) : Prop where
  exMapEq : st.exercisesMap = st.exercisesTab.map (fun e => (e.name, e.id))
  weMapEq : st.weMap = st.weTab.map (fun w => ((w.workout_id, w.exercise_id), w.id))
  woMapIds : st.workoutsMap.map Prod.snd = st.workoutsTab.map (fun w => w.id)
  exIds : st.exercisesTab.map (fun e => e.id) = upTo st.exercisesTab.length
  woIds : st.workoutsTab.map (fun w => w.id) = upTo st.workoutsTab.length
  weIds : st.weTab.map (fun w => w.id) = upTo st.weTab.length
  exNames : (st.exercisesTab.map (fun e => e.name)).Nodup
  weWids : ∀ w ∈ st.weTab, w.workout_id ≤ st.workoutsTab.length
  setWids : ∀ s ∈ st.setsTab, s.workout_id ≤ st.workoutsTab.length

theorem StInv_empty : StInv ({} : ConvState) :=
  ⟨rfl, rfl, rfl, rfl, rfl, rfl, List.nodup_nil, by simp [ConvState.weTab], by simp [ConvState.setsTab]⟩

theorem snd_nodup_inj {α β : Type} {l : List (α × β)} (h : (l.map Prod.snd).Nodup)
    {a b : α} {c : β} (h1 : (a, c) ∈ l) (h2 : (b, c) ∈ l) : a = b := by
  induction l with
  | nil => simp at h1
  | cons p rest ih =>
    simp only [List.map_cons, List.nodup_cons] at h
    rcases List.mem_cons.mp h1 with e1 | m1
    · rcases List.mem_cons.mp h2 with e2 | m2
      · rw [← e1] at e2
        exact (Prod.mk.injEq b c a c ▸ e2 : b = a ∧ c = c).1.symm
      · exact absurd (List.mem_map.mpr ⟨(b, c), m2, by rw [← e1]⟩) h.1
    · rcases List.mem_cons.mp h2 with e2 | m2
      · exact absurd (List.mem_map.mpr ⟨(a, c), m1, by rw [← e2]⟩) h.1
      · exact ih h.2 m1 m2

theorem lookup_none_keys {α β : Type} [BEq α] [LawfulBEq α] {l : List (α × β)} {k : α}
    (h : List.lookup k l = none) : k ∉ l.map Prod.fst := by
  induction l with
  | nil => simp
  | cons p rest ih =>
    cases p with
    | mk k' v' =>
      simp only [List.lookup] at h
      split at h
      · cases h
      · rename_i hbeq
        simp only [List.map_cons, List.mem_cons]
        rintro (he | hm)
        · subst he
          simp at hbeq
        · exact ih h hm

/-- The exercise-map keys are exactly the stored exercise names, without
duplicates. -/
theorem StInv.exMapKeysNodup {st : ConvState} (h : StInv st) :
    (st.exercisesMap.map Prod.fst).Nodup := by
  rw [h.exMapEq, List.map_map]
  exact h.exNames

theorem StInv.exMapIdsNodup {st : ConvState} (h : StInv st) :
    (st.exercisesMap.map Prod.snd).Nodup := by
  rw [h.exMapEq, List.map_map]
  have he : (Prod.snd ∘ fun e : ExerciseRow => (e.name, e.id)) = fun e => e.id := rfl
  rw [he, h.exIds]
  exact nodup_upTo _

theorem StInv.exMapIdLe {st : ConvState} (h : StInv st) {n : String} {i : Nat}
    (hm : (n, i) ∈ st.exercisesMap) : 1 ≤ i ∧ i ≤ st.exercisesTab.length := by
  rw [h.exMapEq] at hm
  rcases List.mem_map.mp hm with ⟨e, he, hpair⟩
  have hid : e.id = i := congrArg Prod.snd hpair
  have hmem : e.id ∈ st.exercisesTab.map (fun e => e.id) := List.mem_map.mpr ⟨e, he, rfl⟩
  rw [h.exIds] at hmem
  exact hid ▸ mem_upTo.mp hmem

theorem StInv.exIdsNodup {st : ConvState} (h : StInv st) :
    (st.exercisesTab.map (fun e => e.id)).Nodup := by
  rw [h.exIds]
  exact nodup_upTo _

theorem StInv.weIdsNodup {st : ConvState} (h : StInv st) :
    (st.weTab.map (fun w => w.id)).Nodup := by
  rw [h.weIds]
  exact nodup_upTo _

/-- With distinct ids, `lookupName` returns the name of any stored row. -/
theorem lookupName_eq {tab : List ExerciseRow} (hn : (tab.map (fun e => e.id)).Nodup)
    {e : ExerciseRow} (he : e ∈ tab) : lookupName tab e.id = some e.name := by
  induction tab with
  | nil => simp at he
  | cons f rest ih =>
    simp only [List.map_cons, List.nodup_cons] at hn
    rcases List.mem_cons.mp he with heq | hmem
    · subst heq
      simp [lookupName, List.find?]
    · by_cases hid : f.id = e.id
      · exact absurd (List.mem_map.mpr ⟨e, hmem, hid.symm⟩) hn.1
      · have hrec := ih hn.2 hmem
        simp only [lookupName, List.find?] at hrec ⊢
        have hb : (decide (f.id = e.id)) = false := by
          simp [hid]
        rw [hb]
        exact hrec

theorem lookupName_append {tab ext : List ExerciseRow} {i : Nat} {n : String}
    (h : lookupName tab i = some n) : lookupName (tab ++ ext) i = some n := by
  simp only [lookupName] at h ⊢
  cases hf : tab.find? (fun e => decide (e.id = i)) with
  | none =>
    rw [hf] at h
    cases h
  | some e =>
    rw [hf] at h
    rw [find?_append_some hf]
    exact h

/-! ## Behaviour of exercise and workout-exercise resolution -/

theorem resolveExercise_spec (st : ConvState) (name : String) (wstart : Int)
    (hInv : StInv st) :
    StInv (resolveExercise st name wstart).1 ∧
    (resolveExercise st name wstart).1.workoutsTab = st.workoutsTab ∧
    (resolveExercise st name wstart).1.workoutsMap = st.workoutsMap ∧
    (resolveExercise st name wstart).1.weTab = st.weTab ∧
    (resolveExercise st name wstart).1.weMap = st.weMap ∧
    (resolveExercise st name wstart).1.setsTab = st.setsTab ∧
    (∃ lm, (resolveExercise st name wstart).1.exercisesMap = st.exercisesMap ++ lm) ∧
    (∃ lex, (resolveExercise st name wstart).1.exercisesTab = st.exercisesTab ++ lex ∧
      ∀ e ∈ lex, e.name = name) ∧
    List.lookup name (resolveExercise st name wstart).1.exercisesMap =
      some (resolveExercise st name wstart).2 ∧
    (∃ e ∈ (resolveExercise st name wstart).1.exercisesTab,
      e.name = name ∧ e.id = (resolveExercise st name wstart).2) := by
  unfold resolveExercise
  cases hlk : List.lookup name st.exercisesMap with
  | some i =>
    refine ⟨hInv, rfl, rfl, rfl, rfl, rfl, ⟨[], by simp⟩, ⟨[], by simp⟩, hlk, ?_⟩
    have hmem := lookup_mem hlk
    rw [hInv.exMapEq] at hmem
    rcases List.mem_map.mp hmem with ⟨e, he, hpair⟩
    exact ⟨e, he, congrArg Prod.fst hpair, congrArg Prod.snd hpair⟩
  | none =>
    have hname_nin : name ∉ st.exercisesTab.map (fun e => e.name) := by
      have h1 := lookup_none_keys hlk
      rw [hInv.exMapEq, List.map_map] at h1
      exact h1
    constructor
    · constructor
      · rw [List.map_append, hInv.exMapEq]
        rfl
      · exact hInv.weMapEq
      · exact hInv.woMapIds
      · rw [List.map_append, hInv.exIds]
        simp [upTo]
      · exact hInv.woIds
      · exact hInv.weIds
      · rw [List.map_append]
        refine List.Nodup.append hInv.exNames (List.nodup_singleton _) ?_
        intro a ha hb
        simp only [List.map_cons, List.map_nil, List.mem_singleton] at hb
        subst hb
        exact hname_nin ha
      · exact hInv.weWids
      · exact hInv.setWids
    · refine ⟨rfl, rfl, rfl, rfl, rfl, ⟨_, rfl⟩, ⟨_, rfl, by simp⟩, ?_, ?_⟩
      · rw [List.lookup_append, hlk]
        simp [List.lookup]
      · exact ⟨_, List.mem_append_right _ (List.mem_singleton.mpr rfl), rfl, rfl⟩

theorem resolveWE_fresh (st : ConvState) (wid eid : Nat) (grows : List Record)
    (ds : String) (now : Int) (order : Nat)
    (hnone : List.lookup (wid, eid) st.weMap = none) :
    ∃ w : WERow,
      resolveWE st wid eid grows ds now order =
        ({ st with weTab := st.weTab ++ [w],
                   weMap := st.weMap ++ [((wid, eid), st.weTab.length + 1)],
                   uidCtr := st.uidCtr + 1 }, st.weTab.length + 1, order + 1) ∧
      w.id = st.weTab.length + 1 ∧ w.workout_id = wid ∧ w.exercise_id = eid ∧
      w.order_index = order := by
  unfold resolveWE
  rw [hnone]
  exact ⟨_, rfl, rfl, rfl, rfl, rfl⟩

/-- Full behaviour of the per-day exercise loop on success: tables only
grow; each group mints exactly one workout-exercise row, with dense order
indices continuing the incoming counter and exercise names matching the
group keys in order; each inserted set carries consistent denormalized
references and obeys the numeric-field rules of its source record. -/
theorem processExGroups_ok :
    ∀ (groups : List (String × List Record)) (st : ConvState) (wid : Nat) (wstart : Int)
      (ds : String) (now : Int) (order : Nat) (st' : ConvState),
    processExGroups st wid wstart ds now order groups = .ok st' →
    StInv st →
    wid = st.workoutsTab.length →
    (groups.map Prod.fst).Nodup →
    (∀ e ∈ st.weMap, e.1.1 = wid →
      ∃ n, n ∉ groups.map Prod.fst ∧ List.lookup n st.exercisesMap = some e.1.2) →
    StInv st' ∧
    st'.workoutsTab = st.workoutsTab ∧
    st'.workoutsMap = st.workoutsMap ∧
    (∃ lm, st'.exercisesMap = st.exercisesMap ++ lm) ∧
    (∃ lex, st'.exercisesTab = st.exercisesTab ++ lex ∧
        ∀ e ∈ lex, e.name ∈ groups.map Prod.fst) ∧
    (∀ p ∈ groups, ∃ i, List.lookup p.1 st'.exercisesMap = some i) ∧
    (∃ lwe, st'.weTab = st.weTab ++ lwe ∧
        lwe.map (fun w => w.order_index) = (List.range groups.length).map (· + order) ∧
        (∀ w ∈ lwe, w.workout_id = wid) ∧
        List.Forall₂ (fun (p : String × List Record) (w : WERow) =>
          lookupName st'.exercisesTab w.exercise_id = some p.1) groups lwe) ∧
    (∃ ls, st'.setsTab = st.setsTab ++ ls ∧
        ls.length = (groups.map (fun p => p.2.length)).sum ∧
        ∀ s ∈ ls, s.workout_id = wid ∧
          (∃ w ∈ st'.weTab, w.id = s.workout_exercise_id ∧ w.workout_id = s.workout_id ∧
            w.exercise_id = s.exercise_id) ∧
          ∃ p ∈ groups, ∃ r ∈ p.2, WeightOk r s ∧ RepsOk r s) := by
  intro groups
  induction groups with
  | nil =>
    intro st wid wstart ds now order st' h hInv hwid hkeys hfresh
    simp only [processExGroups] at h
    cases h
    exact ⟨hInv, rfl, rfl, ⟨[], by simp⟩, ⟨[], by simp, by simp⟩, by simp,
      ⟨[], by simp, by simp, by simp, List.Forall₂.nil⟩, ⟨[], by simp, by simp, by simp⟩⟩
  | cons hd rest ih =>
    intro st wid wstart ds now order st' h hInv hwid hkeys hfresh
    obtain ⟨name, grows⟩ := hd
    simp only [processExGroups] at h
    obtain ⟨hInv1, hwoT1, hwoM1, hweT1, hweM1, hsets1, ⟨lm1, hlm1⟩, ⟨lex1, hlex1, hlex1n⟩,
      hlkname, e0, he0mem, he0name, he0id⟩ :=
      resolveExercise_spec st name wstart hInv
    have hfresh_none :
        List.lookup (wid, (resolveExercise st name wstart).2)
          (resolveExercise st name wstart).1.weMap = none := by
      apply lookup_eq_none_of_not_mem
      intro p hp hpk
      rw [hweM1] at hp
      have hfst : p.1.1 = wid := by rw [hpk]
      obtain ⟨n, hn_nin, hn_lk⟩ := hfresh p hp hfst
      have hpe : p.1.2 = (resolveExercise st name wstart).2 := by rw [hpk]
      rw [hpe] at hn_lk
      have hn_lk1 : List.lookup n (resolveExercise st name wstart).1.exercisesMap =
          some (resolveExercise st name wstart).2 := by
        rw [hlm1]
        exact lookup_append_some hn_lk
      have hnn : n = name :=
        snd_nodup_inj hInv1.exMapIdsNodup (lookup_mem hn_lk1) (lookup_mem hlkname)
      exact hn_nin (hnn ▸ List.mem_cons_self _ _)
    obtain ⟨wrow, hwe_eq, hwrid, hwrwid, hwreid, hwrord⟩ :=
      resolveWE_fresh (resolveExercise st name wstart).1 wid
        (resolveExercise st name wstart).2 grows ds now order hfresh_none
    rw [hwe_eq] at h
    cases hps : processSets
        ({ (resolveExercise st name wstart).1 with
            weTab := (resolveExercise st name wstart).1.weTab ++ [wrow],
            weMap := (resolveExercise st name wstart).1.weMap ++
              [((wid, (resolveExercise st name wstart).2),
                (resolveExercise st name wstart).1.weTab.length + 1)],
            uidCtr := (resolveExercise st name wstart).1.uidCtr + 1 })
        wid (resolveExercise st name wstart).2
        ((resolveExercise st name wstart).1.weTab.length + 1) ds now 0 grows with
    | error e =>
      rw [hps] at h
      cases h
    | ok st3 =>
      rw [hps] at h
      obtain ⟨hps1, hps2, hps3, hps4, hps5, hps6, l3, hl3, hl3len, hl3mem⟩ := processSets_ok hps
      -- the invariant after the workout-exercise insert
      have hInv2 : StInv
          ({ (resolveExercise st name wstart).1 with
              weTab := (resolveExercise st name wstart).1.weTab ++ [wrow],
              weMap := (resolveExercise st name wstart).1.weMap ++
                [((wid, (resolveExercise st name wstart).2),
                  (resolveExercise st name wstart).1.weTab.length + 1)],
              uidCtr := (resolveExercise st name wstart).1.uidCtr + 1 }) := by
        constructor
        · exact hInv1.exMapEq
        · show (resolveExercise st name wstart).1.weMap ++ _ = _
          rw [hInv1.weMapEq, List.map_append]
          congr 1
          simp [hwrid, hwrwid, hwreid]
        · exact hInv1.woMapIds
        · exact hInv1.exIds
        · exact hInv1.woIds
        · show ((resolveExercise st name wstart).1.weTab ++ [wrow]).map (fun w => w.id) = _
          rw [List.map_append, hInv1.weIds]
          simp [upTo, hwrid]
        · exact hInv1.exNames
        · intro w hw
          rcases List.mem_append.mp hw with hold | hnew
          · exact hInv1.weWids w hold
          · simp only [List.mem_singleton] at hnew
            subst hnew
            rw [hwrwid, hwoT1]
            exact Nat.le_of_eq hwid
        · exact hInv1.setWids
      have hInv3 : StInv st3 := by
        constructor
        · rw [hps4, hps1]
          exact hInv2.exMapEq
        · rw [hps6, hps3]
          exact hInv2.weMapEq
        · rw [hps5, hps2]
          exact hInv2.woMapIds
        · rw [hps1]
          exact hInv2.exIds
        · rw [hps2]
          exact hInv2.woIds
        · rw [hps3]
          exact hInv2.weIds
        · rw [hps1]
          exact hInv2.exNames
        · rw [hps3, hps2]
          exact hInv2.weWids
        · rw [hps2]
          intro s hs
          rw [hl3] at hs
          rcases List.mem_append.mp hs with hold | hnew
          · exact hInv2.setWids s hold
          · obtain ⟨hswid, _, _, _⟩ := hl3mem s hnew
            rw [hswid, hwoT1]
            exact Nat.le_of_eq hwid
      have hwid3 : wid = st3.workoutsTab.length := by
        rw [hps2]
        show wid = (resolveExercise st name wstart).1.workoutsTab.length
        rw [hwoT1]
        exact hwid
      have hkeys3 : (rest.map Prod.fst).Nodup := (List.nodup_cons.mp hkeys).2
      have hname_nin_rest : name ∉ rest.map Prod.fst := (List.nodup_cons.mp hkeys).1
      have hfresh3 : ∀ e ∈ st3.weMap, e.1.1 = wid →
          ∃ n, n ∉ rest.map Prod.fst ∧ List.lookup n st3.exercisesMap = some e.1.2 := by
        intro e he hefst
        rw [hps6] at he
        rcases List.mem_append.mp he with hold | hnew
        · rw [hweM1] at hold
          obtain ⟨n, hn_nin, hn_lk⟩ := hfresh e hold hefst
          refine ⟨n, fun hmem => hn_nin (List.mem_cons_of_mem _ hmem), ?_⟩
          rw [hps4, hlm1]
          exact lookup_append_some hn_lk
        · simp only [List.mem_singleton] at hnew
          subst hnew
          refine ⟨name, hname_nin_rest, ?_⟩
          rw [hps4]
          exact hlkname
      obtain ⟨hInv', hT', hM', ⟨lm', hlm'⟩, ⟨lex', hlex', hlexn'⟩, hlook',
        ⟨lwe', hlwe', hord', hwids', hfa'⟩, ⟨ls', hls', hlen', hmem'⟩⟩ :=
        ih st3 wid wstart ds now (order + 1) st' h hInv3 hwid3 hkeys3 hfresh3
      -- assemble
      have hT : st'.workoutsTab = st.workoutsTab := by
        rw [hT', hps2]
        exact hwoT1
      have hM : st'.workoutsMap = st.workoutsMap := by
        rw [hM', hps5]
        exact hwoM1
      have hmap : st'.exercisesMap = st.exercisesMap ++ (lm1 ++ lm') := by
        rw [hlm', hps4, hlm1, List.append_assoc]
      have htab : st'.exercisesTab = st.exercisesTab ++ (lex1 ++ lex') := by
        rw [hlex', hps1, hlex1, List.append_assoc]
      have hweT : st'.weTab = st.weTab ++ (wrow :: lwe') := by
        rw [hlwe', hps3]
        show (resolveExercise st name wstart).1.weTab ++ [wrow] ++ lwe' = _
        rw [hweT1, List.append_assoc]
        rfl
      have hsets : st'.setsTab = st.setsTab ++ (l3 ++ ls') := by
        rw [hls', hl3]
        show (resolveExercise st name wstart).1.setsTab ++ l3 ++ ls' = _
        rw [hsets1, List.append_assoc]
      refine ⟨hInv', hT, hM, ⟨lm1 ++ lm', hmap⟩, ⟨lex1 ++ lex', htab, ?_⟩, ?_,
        ⟨wrow :: lwe', hweT, ?_, ?_, ?_⟩, ⟨l3 ++ ls', hsets, ?_, ?_⟩⟩
      · intro e he
        rcases List.mem_append.mp he with h1 | h1
        · rw [hlex1n e h1]
          exact List.mem_cons_self _ _
        · exact List.mem_cons_of_mem _ (hlexn' e h1)
      · intro p hp
        rcases List.mem_cons.mp hp with heq | hmem
        · subst heq
          refine ⟨(resolveExercise st name wstart).2, ?_⟩
          rw [hlm', hps4]
          exact lookup_append_some hlkname
        · exact hlook' p hmem
      · simp only [List.map_cons, hwrord, hord', List.length_cons, List.range_succ_eq_map,
          List.map_map]
        congr 1
        · omega
        · apply List.map_congr_left
          intro a ha
          simp only [Function.comp_apply]
          omega
      · intro w hw
        rcases List.mem_cons.mp hw with heq | hmem
        · subst heq
          exact hwrwid
        · exact hwids' w hmem
      · refine List.Forall₂.cons ?_ hfa'
        have hl1 : lookupName (resolveExercise st name wstart).1.exercisesTab
            wrow.exercise_id = some name := by
          have hx := lookupName_eq hInv1.exIdsNodup he0mem
          rw [he0id, he0name] at hx
          rw [hwreid]
          exact hx
        have : st'.exercisesTab = (resolveExercise st name wstart).1.exercisesTab ++ lex' := by
          rw [hlex', hps1]
        rw [this]
        exact lookupName_append hl1
      · rw [List.length_append, hl3len, hlen']
        simp
      · intro s hs
        rcases List.mem_append.mp hs with h1 | h1
        · obtain ⟨f1, f2, f3, r, hr, hwr, hrr⟩ := hl3mem s h1
          refine ⟨f1, ⟨wrow, ?_, ?_, ?_, ?_⟩, ⟨(name, grows), List.mem_cons_self _ _, r, hr, hwr, hrr⟩⟩
          · rw [hweT]
            exact List.mem_append_right _ (List.mem_cons_self _ _)
          · rw [hwrid, f3]
          · rw [hwrwid, f1]
          · rw [hwreid, f2]
        · obtain ⟨f1, ⟨w, hwmem, hw1, hw2, hw3⟩, p, hp, hrest⟩ := hmem' s h1
          exact ⟨f1, ⟨w, hwmem, hw1, hw2, hw3⟩, p, List.mem_cons_of_mem _ hp, hrest⟩

theorem processExGroups_error {groups : List (String × List Record)} {st : ConvState}
    {wid : Nat} {wstart : Int} {ds : String} {now : Int} {order : Nat} {e : ConvError}
    (h : processExGroups st wid wstart ds now order groups = .error e) : e = .fieldParse := by
  induction groups generalizing st order with
  | nil => simp [processExGroups] at h
  | cons hd rest ih =>
    obtain ⟨name, grows⟩ := hd
    simp only [processExGroups] at h
    cases hps : processSets ((resolveWE (resolveExercise st name wstart).1 wid
        (resolveExercise st name wstart).2 grows ds now order).1) wid
        (resolveExercise st name wstart).2
        ((resolveWE (resolveExercise st name wstart).1 wid
          (resolveExercise st name wstart).2 grows ds now order).2.1) ds now 0 grows with
    | error e' =>
      rw [hps] at h
      cases h
      exact processSets_error hps
    | ok st3 =>
      rw [hps] at h
      exact ih h

theorem processExGroups_bad {groups : List (String × List Record)} {st : ConvState}
    {wid : Nat} {wstart : Int} {ds : String} {now : Int} {order : Nat}
    {p : String × List Record} {r : Record}
    (hp : p ∈ groups) (hr : r ∈ p.2) (hb : BadNumeric r) :
    processExGroups st wid wstart ds now order groups = .error .fieldParse := by
  induction groups generalizing st order with
  | nil => simp at hp
  | cons hd rest ih =>
    obtain ⟨name, grows⟩ := hd
    simp only [processExGroups]
    rcases List.mem_cons.mp hp with heq | hmem
    · subst heq
      rw [processSets_bad hr hb]
    · cases hps : processSets ((resolveWE (resolveExercise st name wstart).1 wid
          (resolveExercise st name wstart).2 grows ds now order).1) wid
          (resolveExercise st name wstart).2
          ((resolveWE (resolveExercise st name wstart).1 wid
            (resolveExercise st name wstart).2 grows ds now order).2.1) ds now 0 grows with
      | error e' =>
        have he := processSets_error hps
        subst he
        rfl
      | ok st3 =>
        exact ih hmem

/-! ## Behaviour of one date group -/

theorem processDay_ok {st : ConvState} {ds : String} {g : List Record} {now : Int}
    {st' : ConvState} (h : processDay st ds g now = .ok st') (hInv : StInv st) :
    StInv st' ∧
    st'.workoutsMap = st.workoutsMap ++ [(ds, st.workoutsTab.length + 1)] ∧
    (∃ u, st'.workoutsTab = st.workoutsTab ++
      [{ id := st.workoutsTab.length + 1, uid := u,
         started_at := parse_datetime now ds (listMin (g.map (fun r => rget r "Time" "00:00"))),
         completed_at :=
           parse_datetime now ds (listMax (g.map (fun r => rget r "Time" "00:00"))) }]) ∧
    (∃ lm, st'.exercisesMap = st.exercisesMap ++ lm) ∧
    (∃ lex, st'.exercisesTab = st.exercisesTab ++ lex ∧
      ∀ e ∈ lex, e.name ≠ "" ∧ ∃ r ∈ g, exKey r = e.name) ∧
    (∀ r ∈ g, exKey r ≠ "" → ∃ i, List.lookup (exKey r) st'.exercisesMap = some i) ∧
    (∃ lwe, st'.weTab = st.weTab ++ lwe ∧
      (∀ w ∈ lwe, w.workout_id = st.workoutsTab.length + 1) ∧
      lwe.map (fun w => w.order_index) = List.range (groupBy exKey g).length ∧
      List.Forall₂ (fun (p : String × List Record) (w : WERow) =>
        lookupName st'.exercisesTab w.exercise_id = some p.1) (groupBy exKey g) lwe) ∧
    (∃ ls, st'.setsTab = st.setsTab ++ ls ∧
      ls.length = g.countP (fun r => !(exKey r == "")) ∧
      ∀ s ∈ ls, s.workout_id = st.workoutsTab.length + 1 ∧
        (∃ w ∈ st'.weTab, w.id = s.workout_exercise_id ∧ w.workout_id = s.workout_id ∧
          w.exercise_id = s.exercise_id) ∧
        ∃ r ∈ g, exKey r ≠ "" ∧ WeightOk r s ∧ RepsOk r s) := by
  unfold processDay at h
  have hInv1 : StInv
      { st with
          workoutsTab := st.workoutsTab ++
            [{ id := st.workoutsTab.length + 1, uid := st.uidCtr,
               started_at := parse_datetime now ds
                 (listMin (g.map (fun r => rget r "Time" "00:00"))),
               completed_at := parse_datetime now ds
                 (listMax (g.map (fun r => rget r "Time" "00:00"))) }],
          workoutsMap := st.workoutsMap ++ [(ds, st.workoutsTab.length + 1)],
          uidCtr := st.uidCtr + 1 } := by
    constructor
    · exact hInv.exMapEq
    · exact hInv.weMapEq
    · show (st.workoutsMap ++ [(ds, st.workoutsTab.length + 1)]).map Prod.snd = _
      rw [List.map_append, hInv.woMapIds, List.map_append]
      rfl
    · exact hInv.exIds
    · simp only [List.map_append, List.length_append, List.length_singleton]
      rw [hInv.woIds]
      simp [upTo]
    · exact hInv.weIds
    · exact hInv.exNames
    · intro w hw
      have := hInv.weWids w hw
      simp only [List.length_append, List.length_singleton]
      omega
    · intro s hs
      have := hInv.setWids s hs
      simp only [List.length_append, List.length_singleton]
      omega
  have hwid1 : st.workoutsTab.length + 1 =
      ({ st with
          workoutsTab := st.workoutsTab ++
            [{ id := st.workoutsTab.length + 1, uid := st.uidCtr,
               started_at := parse_datetime now ds
                 (listMin (g.map (fun r => rget r "Time" "00:00"))),
               completed_at := parse_datetime now ds
                 (listMax (g.map (fun r => rget r "Time" "00:00"))) }],
          workoutsMap := st.workoutsMap ++ [(ds, st.workoutsTab.length + 1)],
          uidCtr := st.uidCtr + 1 } : ConvState).workoutsTab.length := by
    simp
  have hfresh1 : ∀ e ∈ ({ st with
          workoutsTab := st.workoutsTab ++
            [{ id := st.workoutsTab.length + 1, uid := st.uidCtr,
               started_at := parse_datetime now ds
                 (listMin (g.map (fun r => rget r "Time" "00:00"))),
               completed_at := parse_datetime now ds
                 (listMax (g.map (fun r => rget r "Time" "00:00"))) }],
          workoutsMap := st.workoutsMap ++ [(ds, st.workoutsTab.length + 1)],
          uidCtr := st.uidCtr + 1 } : ConvState).weMap, e.1.1 = st.workoutsTab.length + 1 →
      ∃ n, n ∉ (groupBy exKey g).map Prod.fst ∧
        List.lookup n ({ st with
          workoutsTab := st.workoutsTab ++
            [{ id := st.workoutsTab.length + 1, uid := st.uidCtr,
               started_at := parse_datetime now ds
                 (listMin (g.map (fun r => rget r "Time" "00:00"))),
               completed_at := parse_datetime now ds
                 (listMax (g.map (fun r => rget r "Time" "00:00"))) }],
          workoutsMap := st.workoutsMap ++ [(ds, st.workoutsTab.length + 1)],
          uidCtr := st.uidCtr + 1 } : ConvState).exercisesMap = some e.1.2 := by
    intro e he hefst
    exfalso
    have he' : e ∈ st.weMap := he
    rw [hInv.weMapEq] at he'
    rcases List.mem_map.mp he' with ⟨w, hwmem, hweq⟩
    have : e.1.1 = w.workout_id := by
      rw [← hweq]
    have hle := hInv.weWids w hwmem
    omega
  obtain ⟨hInv', hT', hM', hmap', ⟨lex, hlex, hlexn⟩, hlook', ⟨lwe, hlwe, hord, hwids, hfa⟩,
    ⟨ls, hls, hlen, hmem⟩⟩ :=
    processExGroups_ok (groupBy exKey g) _ (st.workoutsTab.length + 1)
      (parse_datetime now ds (listMin (g.map (fun r => rget r "Time" "00:00")))) ds now 0 st'
      h hInv1 hwid1 (groupBy_keys_nodup exKey g) hfresh1
  refine ⟨hInv', by rw [hM'], ⟨st.uidCtr, by rw [hT']⟩, hmap', ⟨lex, hlex, ?_⟩, ?_,
    ⟨lwe, hlwe, ?_, ?_, hfa⟩, ⟨ls, hls, ?_, ?_⟩⟩
  · intro e he
    have := hlexn e he
    rcases (groupBy_keys_mem exKey g e.name).mp this with ⟨hne, r, hr, hkey⟩
    exact ⟨hne, r, hr, hkey⟩
  · intro r hr hne
    rcases groupBy_mem_of_rec hr hne with ⟨g', hg', hrg'⟩
    exact hlook' (exKey r, g') hg'
  · exact hwids
  · rw [hord]
    simp
  · rw [hlen]
    have h1 := groupBy_countP_sum exKey g (fun _ => true)
    have h2 : ((groupBy exKey g).map (fun p => p.2.countP (fun _ => true))).sum =
        ((groupBy exKey g).map (fun p => p.2.length)).sum := by
      congr 1
      apply List.map_congr_left
      intro p hp
      rw [List.countP_true]
    have h3 : g.countP (fun r => !(exKey r == "") && true) =
        g.countP (fun r => !(exKey r == "")) := by
      apply List.countP_congr
      intro r hr
      simp
    rw [← h2, h1, h3]
  · intro s hs
    obtain ⟨f1, flink, p, hp, r, hr, hwr, hrr⟩ := hmem s hs
    refine ⟨f1, flink, r, (groupBy_mem_rec hp r hr).2, ?_, hwr, hrr⟩
    rw [(groupBy_mem_rec hp r hr).1]
    exact groupBy_fst_ne exKey g p hp

theorem processDay_error {st : ConvState} {ds : String} {g : List Record} {now : Int}
    {e : ConvError} (h : processDay st ds g now = .error e) : e = .fieldParse := by
  unfold processDay at h
  exact processExGroups_error h

theorem processDay_bad {st : ConvState} {ds : String} {g : List Record} {now : Int}
    {r : Record} (hr : r ∈ g) (hne : exKey r ≠ "") (hb : BadNumeric r) :
    processDay st ds g now = .error .fieldParse := by
  unfold processDay
  rcases groupBy_mem_of_rec hr hne with ⟨g', hg', hrg'⟩
  exact processExGroups_bad hg' hrg' hb

theorem pairwise_le_const {l : List Nat} (c : Nat) (h : ∀ x ∈ l, x = c) :
    l.Pairwise (· ≤ ·) := by
  induction l with
  | nil => exact List.Pairwise.nil
  | cons a rest ih =>
    refine List.pairwise_cons.mpr ⟨?_, ih fun x hx => h x (List.mem_cons_of_mem _ hx)⟩
    intro b hb
    rw [h a (List.mem_cons_self _ _), h b (List.mem_cons_of_mem _ hb)]

/-! ## Behaviour of the date-group loop -/

theorem processDays_ok :
    ∀ (gl : List (String × List Record)) (st : ConvState) (now : Int) (st' : ConvState),
    processDays st now gl = .ok st' →
    StInv st →
    StInv st' ∧
    (∃ lw, st'.workoutsMap = st.workoutsMap ++ lw ∧
      lw.map Prod.fst = gl.map Prod.fst ∧
      lw.map Prod.snd = (List.range gl.length).map (st.workoutsTab.length + 1 + ·)) ∧
    st'.workoutsTab.length = st.workoutsTab.length + gl.length ∧
    (∃ lwt, st'.workoutsTab = st.workoutsTab ++ lwt) ∧
    (∀ d wid, (d, wid) ∈ st'.workoutsMap → (d, wid) ∉ st.workoutsMap →
      ∃ g, (d, g) ∈ gl ∧ ∃ w ∈ st'.workoutsTab, w.id = wid ∧
        w.started_at = parse_datetime now d (listMin (g.map (fun r => rget r "Time" "00:00"))) ∧
        w.completed_at =
          parse_datetime now d (listMax (g.map (fun r => rget r "Time" "00:00")))) ∧
    (∀ d wid, (d, wid) ∈ st'.workoutsMap → (d, wid) ∉ st.workoutsMap →
      ∃ g, (d, g) ∈ gl ∧
        (st'.weTab.filter (fun w => w.workout_id = wid)).map (fun w => w.order_index) =
          List.range (groupBy exKey g).length ∧
        List.Forall₂ (fun (p : String × List Record) (w : WERow) =>
          lookupName st'.exercisesTab w.exercise_id = some p.1)
          (groupBy exKey g) (st'.weTab.filter (fun w => w.workout_id = wid))) ∧
    (∃ lex, st'.exercisesTab = st.exercisesTab ++ lex ∧
      ∀ e ∈ lex, e.name ≠ "" ∧ ∃ p ∈ gl, ∃ r ∈ p.2, exKey r = e.name) ∧
    (∃ lm, st'.exercisesMap = st.exercisesMap ++ lm) ∧
    (∀ p ∈ gl, ∀ r ∈ p.2, exKey r ≠ "" →
      ∃ i, List.lookup (exKey r) st'.exercisesMap = some i) ∧
    (∃ lwe, st'.weTab = st.weTab ++ lwe ∧
      (∀ w ∈ lwe, w.workout_id > st.workoutsTab.length) ∧
      (lwe.map (fun w => w.workout_id)).Pairwise (· ≤ ·)) ∧
    (∃ ls, st'.setsTab = st.setsTab ++ ls ∧
      ls.length = ((gl.map (fun p => p.2.countP (fun r => !(exKey r == "")))).sum) ∧
      (∀ s ∈ ls, s.workout_id > st.workoutsTab.length ∧
        (∃ w ∈ st'.weTab, w.id = s.workout_exercise_id ∧ w.workout_id = s.workout_id ∧
          w.exercise_id = s.exercise_id) ∧
        ∃ d g, (d, g) ∈ gl ∧ (d, s.workout_id) ∈ st'.workoutsMap ∧
          ∃ r ∈ g, exKey r ≠ "" ∧ WeightOk r s ∧ RepsOk r s) ∧
      (ls.map (fun s => s.workout_id)).Pairwise (· ≤ ·)) := by
  intro gl
  induction gl with
  | nil =>
    intro st now st' h hInv
    simp only [processDays] at h
    cases h
    refine ⟨hInv, ⟨[], by simp, by simp, by simp⟩, by simp, ⟨[], by simp⟩,
      ?_, ?_, ⟨[], by simp, by simp⟩, ⟨[], by simp⟩, by simp,
      ⟨[], by simp, by simp, by simp⟩, ⟨[], by simp, by simp, by simp, by simp⟩⟩
    · intro d wid hmem hnin
      exact absurd hmem hnin
    · intro d wid hmem hnin
      exact absurd hmem hnin
  | cons hd rest ih =>
    intro st now st' h hInv
    obtain ⟨d1, g1⟩ := hd
    simp only [processDays] at h
    cases hpd : processDay st d1 g1 now with
    | error e =>
      rw [hpd] at h
      cases h
    | ok st1 =>
      rw [hpd] at h
      obtain ⟨hInv1, hM1, ⟨u1, hT1⟩, ⟨lm1, hlm1⟩, ⟨lex1, hlex1, hlex1n⟩, hlook1,
        ⟨lwe1, hlwe1, hwids1, hord1, hfa1⟩, ⟨ls1, hls1, hlen1, hmem1⟩⟩ := processDay_ok hpd hInv
      obtain ⟨hInv', ⟨lw', hlw', hlwf', hlws'⟩, hcnt', ⟨lwt', hlwt'⟩, hwo', hwe',
        ⟨lex', hlex', hlexn'⟩, ⟨lm', hlm'⟩, hlook', ⟨lwe', hlwe', hbnd', hpw'⟩,
        ⟨ls', hls', hlen', hmem', hpws'⟩⟩ := ih st1 now st' h hInv1
      have hlen_st1 : st1.workoutsTab.length = st.workoutsTab.length + 1 := by
        rw [hT1]
        simp
      have hmap_split : st'.workoutsMap =
          st.workoutsMap ++ ((d1, st.workoutsTab.length + 1) :: lw') := by
        rw [hlw', hM1, List.append_assoc]
        rfl
      have hhead_mem : (d1, st.workoutsTab.length + 1) ∈ st'.workoutsMap := by
        rw [hmap_split]
        exact List.mem_append_right _ (List.mem_cons_self _ _)
      refine ⟨hInv', ⟨(d1, st.workoutsTab.length + 1) :: lw', hmap_split, ?_, ?_⟩,
        ?_, ?_, ?_, ?_, ?_, ?_, ?_, ?_, ?_⟩
      · simp only [List.map_cons, hlwf']
      · simp only [List.map_cons, hlws', List.length_cons, List.range_succ_eq_map,
          List.map_map, hlen_st1]
        congr 1
        apply List.map_congr_left
        intro a ha
        simp only [Function.comp_apply]
        omega
      · rw [hcnt', hlen_st1]
        simp only [List.length_cons]
        omega
      · exact ⟨_, by rw [hlwt', hT1, List.append_assoc]⟩
      · intro d wid hmem hnin
        by_cases hin1 : (d, wid) ∈ st1.workoutsMap
        · rw [hM1] at hin1
          rcases List.mem_append.mp hin1 with hold | hnew
          · exact absurd hold hnin
          · simp only [List.mem_singleton] at hnew
            injection hnew with hd_eq hw_eq
            subst hd_eq
            subst hw_eq
            refine ⟨g1, List.mem_cons_self _ _, ?_⟩
            refine ⟨⟨st.workoutsTab.length + 1, u1,
                parse_datetime now d (listMin (g1.map (fun r => rget r "Time" "00:00"))),
                parse_datetime now d (listMax (g1.map (fun r => rget r "Time" "00:00")))⟩,
              ?_, rfl, rfl, rfl⟩
            rw [hlwt']
            apply List.mem_append_left
            rw [hT1]
            exact List.mem_append_right _ (List.mem_singleton.mpr rfl)
        · obtain ⟨g, hg, w, hw, hfields⟩ := hwo' d wid hmem hin1
          exact ⟨g, List.mem_cons_of_mem _ hg, w, hw, hfields⟩
      · intro d wid hmem hnin
        by_cases hin1 : (d, wid) ∈ st1.workoutsMap
        · rw [hM1] at hin1
          rcases List.mem_append.mp hin1 with hold | hnew
          · exact absurd hold hnin
          · simp only [List.mem_singleton] at hnew
            injection hnew with hd_eq hw_eq
            subst hd_eq
            subst hw_eq
            refine ⟨g1, List.mem_cons_self _ _, ?_⟩
            have hfilter : st'.weTab.filter
                (fun w => w.workout_id = st.workoutsTab.length + 1) = lwe1 := by
              rw [hlwe', hlwe1, List.append_assoc, List.filter_append, List.filter_append]
              have h0 : st.weTab.filter
                  (fun w => w.workout_id = st.workoutsTab.length + 1) = [] := by
                rw [List.filter_eq_nil_iff]
                intro w hw
                have := hInv.weWids w hw
                simp only [decide_eq_true_eq]
                omega
              have h1 : lwe1.filter
                  (fun w => w.workout_id = st.workoutsTab.length + 1) = lwe1 := by
                rw [List.filter_eq_self]
                intro w hw
                simp only [decide_eq_true_eq]
                exact hwids1 w hw
              have h2 : lwe'.filter
                  (fun w => w.workout_id = st.workoutsTab.length + 1) = [] := by
                rw [List.filter_eq_nil_iff]
                intro w hw
                have := hbnd' w hw
                rw [hlen_st1] at this
                simp only [decide_eq_true_eq]
                omega
              rw [h0, h1, h2]
              simp
            rw [hfilter]
            refine ⟨hord1, ?_⟩
            refine List.Forall₂.imp ?_ hfa1
            intro p w hpw
            rw [hlex']
            exact lookupName_append hpw
        · obtain ⟨g, hg, hordg, hfag⟩ := hwe' d wid hmem hin1
          exact ⟨g, List.mem_cons_of_mem _ hg, hordg, hfag⟩
      · refine ⟨lex1 ++ lex', by rw [hlex', hlex1, List.append_assoc], ?_⟩
        intro e he
        rcases List.mem_append.mp he with h1 | h1
        · obtain ⟨hne, r, hr, hkey⟩ := hlex1n e h1
          exact ⟨hne, (d1, g1), List.mem_cons_self _ _, r, hr, hkey⟩
        · obtain ⟨hne, p, hp, r, hr, hkey⟩ := hlexn' e h1
          exact ⟨hne, p, List.mem_cons_of_mem _ hp, r, hr, hkey⟩
      · exact ⟨lm1 ++ lm', by rw [hlm', hlm1, List.append_assoc]⟩
      · intro p hp r hr hne
        rcases List.mem_cons.mp hp with heq | hmem
        · subst heq
          obtain ⟨i, hi⟩ := hlook1 r hr hne
          refine ⟨i, ?_⟩
          rw [hlm']
          exact lookup_append_some hi
        · exact hlook' p hmem r hr hne
      · refine ⟨lwe1 ++ lwe', by rw [hlwe', hlwe1, List.append_assoc], ?_, ?_⟩
        · intro w hw
          rcases List.mem_append.mp hw with h1 | h1
          · rw [hwids1 w h1]
            omega
          · have := hbnd' w h1
            rw [hlen_st1] at this
            omega
        · rw [List.map_append, List.pairwise_append]
          refine ⟨?_, hpw', ?_⟩
          · apply pairwise_le_const (st.workoutsTab.length + 1)
            intro x hx
            rcases List.mem_map.mp hx with ⟨w, hw, hxe⟩
            rw [← hxe]
            exact hwids1 w hw
          · intro a ha b hb
            rcases List.mem_map.mp ha with ⟨w, hw, hae⟩
            rcases List.mem_map.mp hb with ⟨w', hw', hbe⟩
            have h1 := hwids1 w hw
            have h2 := hbnd' w' hw'
            rw [hlen_st1] at h2
            omega
      · refine ⟨ls1 ++ ls', by rw [hls', hls1, List.append_assoc], ?_, ?_, ?_⟩
        · rw [List.length_append, hlen1, hlen']
          simp
        · intro s hs
          rcases List.mem_append.mp hs with h1 | h1
          · obtain ⟨f1, ⟨w, hwmem, hlink⟩, r, hr, hne, hwr, hrr⟩ := hmem1 s h1
            refine ⟨by omega, ⟨w, ?_, hlink⟩, d1, g1, List.mem_cons_self _ _, ?_, r, hr, hne, hwr, hrr⟩
            · rw [hlwe']
              exact List.mem_append_left _ hwmem
            · rw [f1]
              exact hhead_mem
          · obtain ⟨f1, hlink, d, g, hg, hgm, hrest⟩ := hmem' s h1
            refine ⟨by omega, hlink, d, g, List.mem_cons_of_mem _ hg, hgm, hrest⟩
        · rw [List.map_append, List.pairwise_append]
          refine ⟨?_, hpws', ?_⟩
          · apply pairwise_le_const (st.workoutsTab.length + 1)
            intro x hx
            rcases List.mem_map.mp hx with ⟨s, hsmem, hxe⟩
            rw [← hxe]
            exact (hmem1 s hsmem).1
          · intro a ha b hb
            rcases List.mem_map.mp ha with ⟨s, hsmem, hae⟩
            rcases List.mem_map.mp hb with ⟨s', hsmem', hbe⟩
            have h1 := (hmem1 s hsmem).1
            have h2 := (hmem' s' hsmem').1
            rw [hlen_st1] at h2
            omega

theorem processDays_error {gl : List (String × List Record)} {st : ConvState} {now : Int}
    {e : ConvError} (h : processDays st now gl = .error e) : e = .fieldParse := by
  induction gl generalizing st with
  | nil => simp [processDays] at h
  | cons hd rest ih =>
    obtain ⟨d1, g1⟩ := hd
    simp only [processDays] at h
    cases hpd : processDay st d1 g1 now with
    | error e' =>
      rw [hpd] at h
      cases h
      exact processDay_error hpd
    | ok st1 =>
      rw [hpd] at h
      exact ih h

theorem processDays_bad {gl : List (String × List Record)} {st : ConvState} {now : Int}
    {d : String} {g : List Record} {r : Record}
    (hg : (d, g) ∈ gl) (hr : r ∈ g) (hne : exKey r ≠ "") (hb : BadNumeric r) :
    processDays st now gl = .error .fieldParse := by
  induction gl generalizing st with
  | nil => simp at hg
  | cons hd rest ih =>
    obtain ⟨d1, g1⟩ := hd
    simp only [processDays]
    rcases List.mem_cons.mp hg with heq | hmem
    · injection heq with h1 h2
      subst h1
      subst h2
      rw [processDay_bad hr hne hb]
    · cases hpd : processDay st d1 g1 now with
      | error e' =>
        have he := processDay_error hpd
        subst he
        rfl
      | ok st1 =>
        exact ih hmem

/-! ## The conversion entry point -/

theorem convert_rows_ok {rows : List Record} {now : Int} {st' : ConvState}
    (h : convert_rows rows now = .ok st') :
    rows ≠ [] ∧ processDays {} now (sortDesc (groupBy dateKey rows)) = .ok st' := by
  unfold convert_rows at h
  by_cases hr : rows = []
  · rw [if_pos hr] at h
    cases h
  · rw [if_neg hr] at h
    exact ⟨hr, h⟩

theorem convert_rows_error_nonempty {rows : List Record} {now : Int} {e : ConvError}
    (hne : rows ≠ []) (h : convert_rows rows now = .error e) : e = .fieldParse := by
  unfold convert_rows at h
  rw [if_neg hne] at h
  exact processDays_error h

/-- Membership transfer from the sorted group list back to `groupBy`. -/
theorem sortDesc_mem {l : List (String × List Record)} {p : String × List Record} :
    p ∈ sortDesc l ↔ p ∈ l :=
  (sortDesc_perm l).mem_iff

theorem sortDesc_keys_nodup {l : List (String × List Record)}
    (h : (l.map Prod.fst).Nodup) : ((sortDesc l).map Prod.fst).Nodup :=
  ((sortDesc_perm l).map Prod.fst).nodup_iff.mpr h

/-! ## Claim theorems -/

/-- The records of one date group, as a filter of the cleaned rows. -/
def dayGroup (raw : List Record) (d : String) : List Record :=
  (clean_rows raw).filter (fun r => dateKey r == d)

/-- C1 (amended): on a successful run, the number of inserted `sets` rows
equals the number of extracted records that survive trimming *and* carry a
non-empty date and a non-empty (trimmed) exercise name. Records surviving
trimming with a blank date or blank exercise name are silently dropped by
the builder, so the original claim's count (all records surviving
trimming) overcounts. -/
theorem C1_set_count (raw : List Record) (now : Int) (st : ConvState)
    (h : convert_csv_to_db raw now = .ok st) :
    st.setsTab.length =
      (clean_rows raw).countP (fun r => !(dateKey r == "") && !(exKey r == "")) := by
  have h' : convert_rows (clean_rows raw) now = .ok st := h
  obtain ⟨hne, hp⟩ := convert_rows_ok h'
  obtain ⟨hInv', _, _, _, _, _, _, _, _, _, ⟨ls, hls, hlen, _, _⟩⟩ :=
    processDays_ok _ _ _ _ hp StInv_empty
  have hsets : st.setsTab = ls := by
    rw [hls]
    rfl
  rw [hsets, hlen]
  have hperm : List.Perm ((sortDesc (groupBy dateKey (clean_rows raw))).map
      (fun p => p.2.countP (fun r => !(exKey r == ""))))
      ((groupBy dateKey (clean_rows raw)).map (fun p => p.2.countP (fun r => !(exKey r == "")))) :=
    (sortDesc_perm _).map _
  rw [hperm.sum_eq, groupBy_countP_sum]

/-- C1 (counterexample): a record that survives trimming but has a blank
date produces no `sets` row, yet the run succeeds with no numeric parse
failure — so the number of sets (0) differs from the number of surviving
records (1). -/
theorem C1_cex :
    convert_csv_to_db [[("Date", ""), ("Exercise", "Bench")]] 0 =
      .ok (outOf [[("Date", ""), ("Exercise", "Bench")]] 0) ∧
    (outOf [[("Date", ""), ("Exercise", "Bench")]] 0).setsTab.length = 0 ∧
    (clean_rows [[("Date", ""), ("Exercise", "Bench")]]).length = 1 :=
  ⟨rfl, rfl, rfl⟩

/-- C1 (witness): the amended count theorem evaluated on a two-row input. -/
theorem C1_set_count_witness :
    (outOf [[("Date", "19/01/2026"), ("Time", "18:30"), ("Exercise", "Bench")],
      [("Date", ""), ("Exercise", "Bench")]] 0).setsTab.length =
    (clean_rows [[("Date", "19/01/2026"), ("Time", "18:30"), ("Exercise", "Bench")],
      [("Date", ""), ("Exercise", "Bench")]]).countP
      (fun r => !(dateKey r == "") && !(exKey r == "")) :=
  C1_set_count _ 0 _ rfl

/-- C2 (amended): date groups are processed in descending *lexicographic*
order of the raw date strings — which coincides with chronological order
only for formats such as ISO dates, not for the DD/MM/YYYY strings the
converter is built for. In processing order the workout ids are minted
sequentially (1, 2, …) and both `workout_exercises` and `sets` rows are
inserted with non-decreasing workout ids, so every row of a
lexicographically larger date string precedes every row of a smaller
one. -/
theorem C2_desc_order (raw : List Record) (now : Int) (st : ConvState)
    (h : convert_csv_to_db raw now = .ok st) :
    (st.workoutsMap.map Prod.fst).Pairwise (fun a b => pyStrLt b a = true) ∧
    st.workoutsMap.map Prod.snd = upTo st.workoutsMap.length ∧
    (st.weTab.map (fun w => w.workout_id)).Pairwise (· ≤ ·) ∧
    (st.setsTab.map (fun s => s.workout_id)).Pairwise (· ≤ ·) := by
  have h' : convert_rows (clean_rows raw) now = .ok st := h
  obtain ⟨hne, hp⟩ := convert_rows_ok h'
  obtain ⟨hInv', ⟨lw, hlw, hlwf, hlws⟩, _, _, _, _, _, _, _,
    ⟨lwe, hlwe, _, hpwwe⟩, ⟨ls, hls, _, _, hpwls⟩⟩ :=
    processDays_ok _ _ _ _ hp StInv_empty
  have hmap : st.workoutsMap = lw := by
    rw [hlw]
    rfl
  have hweT : st.weTab = lwe := by
    rw [hlwe]
    rfl
  have hsets : st.setsTab = ls := by
    rw [hls]
    rfl
  refine ⟨?_, ?_, hweT ▸ hpwwe, hsets ▸ hpwls⟩
  · rw [hmap, hlwf]
    refine List.pairwise_map.mpr ?_
    exact sortDesc_pairwise (groupBy_keys_nodup dateKey (clean_rows raw))
  · have hlen : lw.length = (sortDesc (groupBy dateKey (clean_rows raw))).length := by
      have := congrArg List.length hlwf
      simpa using this
    rw [hmap, hlws, hlen, upTo_eq_range_map]
    apply List.map_congr_left
    intro a ha
    show 0 + 1 + a = a + 1
    omega

/-- C2 (counterexample): with the two dates "01/02/2026" (1 Feb 2026) and
"02/01/2026" (2 Jan 2026), descending string order puts the chronologically
*older* workout (2 Jan) first: it receives workout id 1 and its set is
inserted first, while the more recent workout (1 Feb, with the strictly
larger parsed timestamp) comes second — contradicting "most recent workout
first". -/
theorem C2_cex :
    convert_csv_to_db [[("Date", "01/02/2026"), ("Time", "10:00"), ("Exercise", "A")],
        [("Date", "02/01/2026"), ("Time", "10:00"), ("Exercise", "B")]] 0 =
      .ok (outOf [[("Date", "01/02/2026"), ("Time", "10:00"), ("Exercise", "A")],
        [("Date", "02/01/2026"), ("Time", "10:00"), ("Exercise", "B")]] 0) ∧
    (outOf [[("Date", "01/02/2026"), ("Time", "10:00"), ("Exercise", "A")],
        [("Date", "02/01/2026"), ("Time", "10:00"), ("Exercise", "B")]] 0).workoutsMap =
      [("02/01/2026", 1), ("01/02/2026", 2)] ∧
    (outOf [[("Date", "01/02/2026"), ("Time", "10:00"), ("Exercise", "A")],
        [("Date", "02/01/2026"), ("Time", "10:00"), ("Exercise", "B")]] 0).setsTab.map
        (fun s => s.workout_id) = [1, 2] ∧
    parse_datetime 0 "02/01/2026" "10:00" < parse_datetime 0 "01/02/2026" "10:00" := by
  refine ⟨rfl, rfl, rfl, by decide⟩

/-- C2 (witness): the amended ordering theorem evaluated on a two-date
input. -/
theorem C2_desc_order_witness :
    ((outOf [[("Date", "01/02/2026"), ("Time", "10:00"), ("Exercise", "C")],
        [("Date", "02/01/2026"), ("Time", "10:00"), ("Exercise", "D")]] 0).workoutsMap.map
      Prod.fst).Pairwise (fun a b => pyStrLt b a = true) ∧
    (outOf [[("Date", "01/02/2026"), ("Time", "10:00"), ("Exercise", "C")],
        [("Date", "02/01/2026"), ("Time", "10:00"), ("Exercise", "D")]] 0).workoutsMap.map
      Prod.snd = upTo (outOf [[("Date", "01/02/2026"), ("Time", "10:00"), ("Exercise", "C")],
        [("Date", "02/01/2026"), ("Time", "10:00"), ("Exercise", "D")]] 0).workoutsMap.length :=
  ⟨(C2_desc_order [[("Date", "01/02/2026"), ("Time", "10:00"), ("Exercise", "C")],
      [("Date", "02/01/2026"), ("Time", "10:00"), ("Exercise", "D")]] 0
    (outOf [[("Date", "01/02/2026"), ("Time", "10:00"), ("Exercise", "C")],
      [("Date", "02/01/2026"), ("Time", "10:00"), ("Exercise", "D")]] 0) rfl).1,
   (C2_desc_order [[("Date", "01/02/2026"), ("Time", "10:00"), ("Exercise", "C")],
      [("Date", "02/01/2026"), ("Time", "10:00"), ("Exercise", "D")]] 0
    (outOf [[("Date", "01/02/2026"), ("Time", "10:00"), ("Exercise", "C")],
      [("Date", "02/01/2026"), ("Time", "10:00"), ("Exercise", "D")]] 0) rfl).2.1⟩

/-- Pointwise relation on raw (key, value) pairs: keys agree up to
surrounding whitespace (and agree on being empty, which the cleaner tests
before trimming), values are identical. -/
def keyPairWs (kv kv' : String × String) : Bool :=
  (pyStrip kv.1 == pyStrip kv'.1) && ((kv.1 == "") == (kv'.1 == "")) && (kv.2 == kv'.2)

/-- Two raw records whose column names differ only in surrounding
whitespace. -/
def recordWs : Record → Record → Bool
  | [], [] => true
  | kv :: rest, kv' :: rest' => keyPairWs kv kv' && recordWs rest rest'
  | _, _ => false

/-- Two raw inputs whose column names differ only in surrounding
whitespace. -/
def rowsWs : List Record → List Record → Bool
  | [], [] => true
  | r :: rs, r' :: rs' => recordWs r r' && rowsWs rs rs'
  | _, _ => false

theorem cleanRow_ws {r r' : Record} (h : recordWs r r' = true) :
    cleanRow r = cleanRow r' := by
  unfold cleanRow
  suffices hgen : ∀ (r r' : Record) (acc : List (String × String)), recordWs r r' = true →
      List.foldl (fun acc kv =>
        if kv.1 ≠ "" then assocSet (pyStrip kv.1) (pyStrip kv.2) acc else acc) acc r =
      List.foldl (fun acc kv =>
        if kv.1 ≠ "" then assocSet (pyStrip kv.1) (pyStrip kv.2) acc else acc) acc r' by
    exact hgen r r' [] h
  intro r
  induction r with
  | nil =>
    intro r' acc h
    cases r' with
    | nil => rfl
    | cons kv' rest' => simp [recordWs] at h
  | cons kv rest ih =>
    intro r' acc h
    cases r' with
    | nil => simp [recordWs] at h
    | cons kv' rest' =>
      simp only [recordWs, Bool.and_eq_true] at h
      obtain ⟨hpair, hrest⟩ := h
      simp only [keyPairWs, Bool.and_eq_true, beq_iff_eq] at hpair
      obtain ⟨⟨hstrip, hempty⟩, hval⟩ := hpair
      simp only [List.foldl_cons]
      by_cases hk : kv.1 = ""
      · have hk' : kv'.1 = "" := by
          have : (kv.1 == "") = true := beq_iff_eq.mpr hk
          rw [this] at hempty
          exact beq_iff_eq.mp hempty.symm
        rw [if_neg (by simpa using hk), if_neg (by simpa using hk')]
        exact ih rest' acc hrest
      · have hk' : kv'.1 ≠ "" := by
          intro he
          have : (kv'.1 == "") = true := beq_iff_eq.mpr he
          rw [this] at hempty
          exact hk (beq_iff_eq.mp hempty)
        rw [if_pos (by simpa using hk), if_pos (by simpa using hk'), hstrip, hval]
        exact ih rest' _ hrest

/-- C3 (amended): column-name matching is whitespace-insensitive — two raw
inputs whose column names differ only in surrounding whitespace produce
identical conversion results — but it is *not* case-insensitive: the
builder looks fields up by the exact strings 'Date', 'Time', 'Exercise',
'Weight', '# of Reps', 'Notes'. -/
theorem C3_ws_insensitive (raw raw' : List Record) (now : Int)
    (h : rowsWs raw raw' = true) :
    convert_csv_to_db raw now = convert_csv_to_db raw' now := by
  suffices hc : clean_rows raw = clean_rows raw' by
    unfold convert_csv_to_db
    rw [hc]
  unfold clean_rows
  suffices hm : raw.map cleanRow = raw'.map cleanRow by
    rw [hm]
  induction raw generalizing raw' with
  | nil =>
    cases raw' with
    | nil => rfl
    | cons r' rs' => simp [rowsWs] at h
  | cons r rs ih =>
    cases raw' with
    | nil => simp [rowsWs] at h
    | cons r' rs' =>
      simp only [rowsWs, Bool.and_eq_true] at h
      simp only [List.map_cons]
      rw [cleanRow_ws h.1, ih rs' h.2]

/-- C3 (counterexample): changing the letter case of one column header
('Date' → 'date') changes the produced entity graph — the case-variant
input yields no workouts and no sets where the original yields one of
each — so matching is not case-insensitive. -/
theorem C3_case_cex :
    convert_csv_to_db [[("Date", "19/01/2026"), ("Time", "18:30"), ("Exercise", "Bicep Curl")]] 0 =
      .ok (outOf [[("Date", "19/01/2026"), ("Time", "18:30"), ("Exercise", "Bicep Curl")]] 0) ∧
    convert_csv_to_db [[("date", "19/01/2026"), ("Time", "18:30"), ("Exercise", "Bicep Curl")]] 0 =
      .ok (outOf [[("date", "19/01/2026"), ("Time", "18:30"), ("Exercise", "Bicep Curl")]] 0) ∧
    (outOf [[("Date", "19/01/2026"), ("Time", "18:30"), ("Exercise", "Bicep Curl")]] 0).setsTab.length = 1 ∧
    (outOf [[("date", "19/01/2026"), ("Time", "18:30"), ("Exercise", "Bicep Curl")]] 0).setsTab.length = 0 ∧
    (outOf [[("Date", "19/01/2026"), ("Time", "18:30"), ("Exercise", "Bicep Curl")]] 0).workoutsTab.length = 1 ∧
    (outOf [[("date", "19/01/2026"), ("Time", "18:30"), ("Exercise", "Bicep Curl")]] 0).workoutsTab.length = 0 :=
  ⟨rfl, rfl, rfl, rfl, rfl, rfl⟩

/-- C3 (witness): whitespace around column names does not change the
result. -/
theorem C3_ws_witness :
    rowsWs [[(" Date ", "19/01/2026"), ("Exercise", "Bench")]]
      [[("Date", "19/01/2026"), ("Exercise", "Bench")]] = true ∧
    convert_csv_to_db [[(" Date ", "19/01/2026"), ("Exercise", "Bench")]] 0 =
      convert_csv_to_db [[("Date", "19/01/2026"), ("Exercise", "Bench")]] 0 :=
  ⟨by decide, C3_ws_insensitive _ _ 0 (by decide)⟩

/-- C4 (amended): each distinct *non-empty* date value among the extracted
records produces exactly one workout row, whose `started_at` /
`completed_at` are the parse of the lexicographic minimum / maximum
time-of-day string of that date's records (`"00:00"` standing in for an
absent time field). Records whose date value is blank are dropped before
grouping and produce no workout, so the unqualified "each distinct date
value" fails. -/
theorem C4_one_workout_per_date (raw : List Record) (now : Int) (st : ConvState)
    (h : convert_csv_to_db raw now = .ok st) :
    (st.workoutsMap.map Prod.fst).Nodup ∧
    (∀ d, d ∈ st.workoutsMap.map Prod.fst ↔
      (d ≠ "" ∧ ∃ r ∈ clean_rows raw, dateKey r = d)) ∧
    st.workoutsTab.length = st.workoutsMap.length ∧
    (st.workoutsTab.map (fun w => w.id)).Nodup ∧
    (∀ d wid, (d, wid) ∈ st.workoutsMap →
      ∃ w ∈ st.workoutsTab, w.id = wid ∧
        w.started_at = parse_datetime now d
          (listMin ((dayGroup raw d).map (fun r => rget r "Time" "00:00"))) ∧
        w.completed_at = parse_datetime now d
          (listMax ((dayGroup raw d).map (fun r => rget r "Time" "00:00")))) := by
  have h' : convert_rows (clean_rows raw) now = .ok st := h
  obtain ⟨hne, hp⟩ := convert_rows_ok h'
  obtain ⟨hInv', ⟨lw, hlw, hlwf, hlws⟩, hcnt, _, hwo, _, _, _, _, _, _⟩ :=
    processDays_ok _ _ _ _ hp StInv_empty
  have hmap : st.workoutsMap = lw := by
    rw [hlw]
    rfl
  have hkeys : st.workoutsMap.map Prod.fst =
      (sortDesc (groupBy dateKey (clean_rows raw))).map Prod.fst := by
    rw [hmap, hlwf]
  refine ⟨?_, ?_, ?_, ?_, ?_⟩
  · rw [hkeys]
    exact sortDesc_keys_nodup (groupBy_keys_nodup dateKey (clean_rows raw))
  · intro d
    rw [hkeys]
    constructor
    · intro hd
      rcases List.mem_map.mp hd with ⟨p, hpmem, hpf⟩
      have hpg : p ∈ groupBy dateKey (clean_rows raw) := sortDesc_mem.mp hpmem
      have := (groupBy_keys_mem dateKey (clean_rows raw) d).mp
        (List.mem_map.mpr ⟨p, hpg, hpf⟩)
      exact this
    · intro ⟨hdne, r, hr, hdr⟩
      have := (groupBy_keys_mem dateKey (clean_rows raw) d).mpr ⟨hdne, r, hr, hdr⟩
      rcases List.mem_map.mp this with ⟨p, hpmem, hpf⟩
      exact List.mem_map.mpr ⟨p, sortDesc_mem.mpr hpmem, hpf⟩
  · rw [hcnt, hmap]
    have := congrArg List.length hlwf
    simp only [List.length_map] at this
    simp [this]
  · rw [hInv'.woIds]
    exact nodup_upTo _
  · intro d wid hmem
    obtain ⟨g, hg, w, hw, hid, hst, hcp⟩ := hwo d wid hmem (by simp [ConvState.workoutsMap])
    have hgfil : g = dayGroup raw d := by
      have hgg : (d, g) ∈ groupBy dateKey (clean_rows raw) := sortDesc_mem.mp hg
      exact groupBy_mem_eq_filter hgg
    rw [hgfil] at hst hcp
    exact ⟨w, hw, hid, hst, hcp⟩

/-- C4 (counterexample): a record whose date value is the empty string
survives extraction, so the empty string is a distinct date value among
the extracted records — yet the run produces zero workout rows. -/
theorem C4_cex :
    convert_csv_to_db [[("Date", "")]] 0 = .ok (outOf [[("Date", "")]] 0) ∧
    (outOf [[("Date", "")]] 0).workoutsTab.length = 0 ∧
    (clean_rows [[("Date", "")]]).countP (fun r => dateKey r == "") = 1 :=
  ⟨rfl, rfl, rfl⟩

/-- C4 (witness): the spec's two-row scenario — same date, times 18:30 and
18:40 — instantiating the amended theorem. -/
theorem C4_witness :
    ∃ w ∈ (outOf [[("Date", "19/01/2026"), ("Time", "18:40"), ("Exercise", "Bicep Curl")],
        [("Date", "19/01/2026"), ("Time", "18:30"), ("Exercise", "Bicep Curl")]] 0).workoutsTab,
      w.id = 1 ∧
      w.started_at = parse_datetime 0 "19/01/2026"
        (listMin ((dayGroup [[("Date", "19/01/2026"), ("Time", "18:40"), ("Exercise", "Bicep Curl")],
          [("Date", "19/01/2026"), ("Time", "18:30"), ("Exercise", "Bicep Curl")]]
            "19/01/2026").map (fun r => rget r "Time" "00:00"))) ∧
      w.completed_at = parse_datetime 0 "19/01/2026"
        (listMax ((dayGroup [[("Date", "19/01/2026"), ("Time", "18:40"), ("Exercise", "Bicep Curl")],
          [("Date", "19/01/2026"), ("Time", "18:30"), ("Exercise", "Bicep Curl")]]
            "19/01/2026").map (fun r => rget r "Time" "00:00"))) :=
  (C4_one_workout_per_date
    [[("Date", "19/01/2026"), ("Time", "18:40"), ("Exercise", "Bicep Curl")],
      [("Date", "19/01/2026"), ("Time", "18:30"), ("Exercise", "Bicep Curl")]] 0
    (outOf [[("Date", "19/01/2026"), ("Time", "18:40"), ("Exercise", "Bicep Curl")],
      [("Date", "19/01/2026"), ("Time", "18:30"), ("Exercise", "Bicep Curl")]] 0) rfl).2.2.2.2
    "19/01/2026" 1 (by decide)

/-- C5 (confirmed): one `exercises` row per distinct exercise name for the
whole run. The stored names are pairwise distinct, and a name is stored
exactly when it is the (trimmed, non-empty) exercise name of some
processed record (one with a non-empty date) — regardless of how many
dates reference it. Later encounters reuse the stored row instead of
creating another, which is what the distinctness expresses. -/
theorem C5_one_exercise_per_name (raw : List Record) (now : Int) (st : ConvState)
    (h : convert_csv_to_db raw now = .ok st) :
    (st.exercisesTab.map (fun e => e.name)).Nodup ∧
    ∀ n, n ∈ st.exercisesTab.map (fun e => e.name) ↔
      (n ≠ "" ∧ ∃ r ∈ clean_rows raw, dateKey r ≠ "" ∧ exKey r = n) := by
  have h' : convert_rows (clean_rows raw) now = .ok st := h
  obtain ⟨hne, hp⟩ := convert_rows_ok h'
  obtain ⟨hInv', _, _, _, _, _, ⟨lex, hlex, hlexn⟩, _, hlook, _, _⟩ :=
    processDays_ok _ _ _ _ hp StInv_empty
  have htab : st.exercisesTab = lex := by
    rw [hlex]
    rfl
  refine ⟨hInv'.exNames, ?_⟩
  intro n
  constructor
  · intro hn
    rcases List.mem_map.mp hn with ⟨e, he, hname⟩
    rw [htab] at he
    obtain ⟨hne0, p, hpmem, r, hr, hkey⟩ := hlexn e he
    have hpg : p ∈ groupBy dateKey (clean_rows raw) := sortDesc_mem.mp hpmem
    obtain ⟨hdr, hrl⟩ := groupBy_mem_rec hpg r hr
    refine ⟨hname ▸ hne0, r, hrl, ?_, hname ▸ hkey⟩
    rw [hdr]
    exact groupBy_fst_ne dateKey (clean_rows raw) p hpg
  · rintro ⟨hn0, r, hr, hdr, hkey⟩
    obtain ⟨g, hg, hrg⟩ := groupBy_mem_of_rec hr hdr
    obtain ⟨i, hi⟩ := hlook (dateKey r, g) (sortDesc_mem.mpr hg) r hrg (hkey ▸ hn0)
    have hmem := lookup_mem hi
    rw [hInv'.exMapEq] at hmem
    rcases List.mem_map.mp hmem with ⟨e, he, hpair⟩
    have : e.name = exKey r := congrArg Prod.fst hpair
    exact List.mem_map.mpr ⟨e, he, by rw [this, hkey]⟩

/-- C5 (witness): the same exercise name on two different dates yields the
name exactly once, while an unseen name is absent. -/
theorem C5_witness :
    ("Bench" ∈ (outOf [[("Date", "19/01/2026"), ("Exercise", "Bench")],
        [("Date", "20/01/2026"), ("Exercise", "Bench")]] 0).exercisesTab.map
      (fun e => e.name) ↔
      ("Bench" ≠ "" ∧ ∃ r ∈ clean_rows [[("Date", "19/01/2026"), ("Exercise", "Bench")],
        [("Date", "20/01/2026"), ("Exercise", "Bench")]],
        dateKey r ≠ "" ∧ exKey r = "Bench")) ∧
    ((outOf [[("Date", "19/01/2026"), ("Exercise", "Bench")],
        [("Date", "20/01/2026"), ("Exercise", "Bench")]] 0).exercisesTab.map
      (fun e => e.name)).Nodup :=
  ⟨(C5_one_exercise_per_name [[("Date", "19/01/2026"), ("Exercise", "Bench")],
      [("Date", "20/01/2026"), ("Exercise", "Bench")]] 0
      (outOf [[("Date", "19/01/2026"), ("Exercise", "Bench")],
        [("Date", "20/01/2026"), ("Exercise", "Bench")]] 0) rfl).2 "Bench",
   (C5_one_exercise_per_name [[("Date", "19/01/2026"), ("Exercise", "Bench")],
      [("Date", "20/01/2026"), ("Exercise", "Bench")]] 0
      (outOf [[("Date", "19/01/2026"), ("Exercise", "Bench")],
        [("Date", "20/01/2026"), ("Exercise", "Bench")]] 0) rfl).1⟩

/-- C6 (confirmed): within every workout, the `order_index` values of its
`workout_exercises` rows (in insertion order) form the dense zero-based
sequence 0, 1, 2, …, and the rows' exercise names follow the first-seen
order of the exercise names in that day's record sequence (the key order
of the per-day grouping); the counter restarts at zero for each workout. -/
theorem C6_order_dense (raw : List Record) (now : Int) (st : ConvState)
    (h : convert_csv_to_db raw now = .ok st) :
    ∀ d wid, (d, wid) ∈ st.workoutsMap →
      ((st.weTab.filter (fun w => w.workout_id = wid)).map (fun w => w.order_index) =
        List.range ((st.weTab.filter (fun w => w.workout_id = wid)).length) ∧
      List.Forall₂ (fun (p : String × List Record) (w : WERow) =>
        lookupName st.exercisesTab w.exercise_id = some p.1)
        (groupBy exKey (dayGroup raw d))
        (st.weTab.filter (fun w => w.workout_id = wid))) := by
  have h' : convert_rows (clean_rows raw) now = .ok st := h
  obtain ⟨hne, hp⟩ := convert_rows_ok h'
  obtain ⟨hInv', _, _, _, _, hwe, _, _, _, _, _⟩ :=
    processDays_ok _ _ _ _ hp StInv_empty
  intro d wid hmem
  obtain ⟨g, hg, hord, hfa⟩ := hwe d wid hmem (by simp [ConvState.workoutsMap])
  have hgfil : g = dayGroup raw d := by
    have hgg : (d, g) ∈ groupBy dateKey (clean_rows raw) := sortDesc_mem.mp hg
    exact groupBy_mem_eq_filter hgg
  have hlen : (groupBy exKey g).length =
      (st.weTab.filter (fun w => w.workout_id = wid)).length :=
    hfa.length_eq
  constructor
  · rw [hord, hlen]
  · rw [← hgfil]
    exact hfa

/-- C6 (witness): a day with two exercises, interleaved A B A, yields order
indices [0, 1] and names in first-seen order A, B. -/
theorem C6_witness :
    ((outOf [[("Date", "19/01/2026"), ("Exercise", "A")],
        [("Date", "19/01/2026"), ("Exercise", "B")],
        [("Date", "19/01/2026"), ("Exercise", "A")]] 0).weTab.filter
      (fun w => w.workout_id = 1)).map (fun w => w.order_index) =
    List.range (((outOf [[("Date", "19/01/2026"), ("Exercise", "A")],
        [("Date", "19/01/2026"), ("Exercise", "B")],
        [("Date", "19/01/2026"), ("Exercise", "A")]] 0).weTab.filter
      (fun w => w.workout_id = 1)).length) :=
  (C6_order_dense [[("Date", "19/01/2026"), ("Exercise", "A")],
      [("Date", "19/01/2026"), ("Exercise", "B")],
      [("Date", "19/01/2026"), ("Exercise", "A")]] 0
    (outOf [[("Date", "19/01/2026"), ("Exercise", "A")],
      [("Date", "19/01/2026"), ("Exercise", "B")],
      [("Date", "19/01/2026"), ("Exercise", "A")]] 0) rfl "19/01/2026" 1 (by decide)).1

/-- C7 (confirmed): `parse_datetime` first attempts the strict
day/month/year 24-hour parse, on its failure attempts the ISO
year-month-day parse, and when both fail returns the current wall-clock
time (`now`); the fallback never aborts the run — a row whose date and
time both fail to parse still produces its `sets` row (stamped with the
fallback time) and the conversion completes with exit code 0. -/
theorem C7_timestamp_fallback :
    (∀ (now : Int) (d t : String) (c : CivilTime),
      parseDMY (d ++ " " ++ t) = some c → parse_datetime now d t = toMillis c) ∧
    (∀ (now : Int) (d t : String) (c : CivilTime),
      parseDMY (d ++ " " ++ t) = none → parseISO (d ++ " " ++ t) = some c →
        parse_datetime now d t = toMillis c) ∧
    (∀ (now : Int) (d t : String),
      parseDMY (d ++ " " ++ t) = none → parseISO (d ++ " " ++ t) = none →
        parse_datetime now d t = now) ∧
    (∀ (pre : FileState) (now : Int) (d t : String),
      pyStrip d = d → pyStrip t = t → d ≠ "" →
      parseDMY (d ++ " " ++ t) = none → parseISO (d ++ " " ++ t) = none →
      ∃ st, convert_run pre [[("Date", d), ("Time", t), ("Exercise", "Squat")]] now =
          (0, FileState.written st) ∧
        st.setsTab.map (fun s => s.performed_at) = [now] ∧
        st.setsTab.length = 1) := by
  refine ⟨?_, ?_, ?_, ?_⟩
  · intro now d t c hc
    unfold parse_datetime
    rw [hc]
  · intro now d t c h1 hc
    unfold parse_datetime
    rw [h1, hc]
  · intro now d t h1 h2
    unfold parse_datetime
    rw [h1, h2]
  · intro pre now d t hd ht hdne h1 h2
    have hpdt : parse_datetime now d t = now := by
      unfold parse_datetime
      rw [h1, h2]
    have k1 : pyStrip "Date" = "Date" := rfl
    have k2 : pyStrip "Time" = "Time" := rfl
    have k3 : pyStrip "Exercise" = "Exercise" := rfl
    have k4 : pyStrip "Squat" = "Squat" := rfl
    have k5 : pyStrip "" = "" := rfl
    have hclean : clean_rows [[("Date", d), ("Time", t), ("Exercise", "Squat")]] =
        [[("Date", d), ("Time", t), ("Exercise", "Squat")]] := by
      simp +decide [clean_rows, cleanRow, assocSet, hd, ht, k1, k2, k3, k4]
    have hdk : dateKey [("Date", d), ("Time", t), ("Exercise", "Squat")] = d := rfl
    have hek : exKey [("Date", d), ("Time", t), ("Exercise", "Squat")] = "Squat" := rfl
    have htk : rget [("Date", d), ("Time", t), ("Exercise", "Squat")] "Time" "00:00" = t := rfl
    refine ⟨⟨[⟨1, 1, "Squat", now⟩], [⟨1, 0, now, now⟩], [⟨1, 2, 1, 1, 0, none, now, now⟩],
        [⟨1, 3, 1, 1, 1, 0, none, none, none, now, false⟩],
        [("Squat", 1)], [(d, 1)], [((1, 1), 1)], 4⟩, ?_, rfl, rfl⟩
    unfold convert_run
    rw [hclean]
    rw [if_neg (by simp)]
    have hcr : convert_rows [[("Date", d), ("Time", t), ("Exercise", "Squat")]] now =
        .ok ⟨[⟨1, 1, "Squat", now⟩], [⟨1, 0, now, now⟩], [⟨1, 2, 1, 1, 0, none, now, now⟩],
          [⟨1, 3, 1, 1, 1, 0, none, none, none, now, false⟩],
          [("Squat", 1)], [(d, 1)], [((1, 1), 1)], 4⟩ := by
      unfold convert_rows
      rw [if_neg (by simp)]
      simp +decide [groupBy, groupByAux, insertGroup, hdk, hdne, sortDesc, insertDesc,
        processDays, processDay, listMin, listMax, htk, hpdt, hek,
        processExGroups, resolveExercise, resolveWE, List.lookup, rget,
        processSets, setRowOf, setWeight, setReps, weightStr, repsStr, k5]
    rw [hcr]

/-- C7 (witness): a fully unparseable date/time pair falls back to the
supplied clock value and the single-row conversion exits 0. -/
theorem C7_witness :
    parse_datetime 7 "garbage" "xx" = 7 ∧
    (convert_run FileState.absent
      [[("Date", "garbage"), ("Time", "xx"), ("Exercise", "Squat")]] 7).1 = 0 := by
  constructor
  · exact C7_timestamp_fallback.2.2.1 7 "garbage" "xx" (by decide) (by decide)
  · obtain ⟨st, hrun, _, _⟩ := C7_timestamp_fallback.2.2.2 FileState.absent 7 "garbage" "xx"
      rfl rfl (by decide) (by decide) (by decide)
    rw [hrun]

/-- C8 (amended): the numeric-field policy holds for every record that
*reaches set creation* (non-empty date and non-empty trimmed exercise
name): a non-blank non-numeric weight or reps field aborts the whole run
with the field-parse error and exit code 1 — no per-row skipping and no
defaulting — while on a successful run every inserted set's weight/reps
is NULL exactly when its source field is blank and the parsed value
otherwise. A record that never reaches set creation (blank date or blank
exercise name) is dropped before its numeric fields are parsed, so its
non-numeric text is *not* fatal, contradicting the unqualified "for every
record". -/
theorem C8_numeric_policy (raw : List Record) (now : Int) :
    ((∃ r ∈ clean_rows raw, dateKey r ≠ "" ∧ exKey r ≠ "" ∧ BadNumeric r) →
      convert_csv_to_db raw now = .error .fieldParse ∧
      (convert_run FileState.absent raw now).1 = 1) ∧
    (∀ st, convert_csv_to_db raw now = .ok st →
      ∀ s ∈ st.setsTab, ∃ r ∈ clean_rows raw, WeightOk r s ∧ RepsOk r s) := by
  constructor
  · rintro ⟨r, hr, hdner, hexner, hbad⟩
    have hne : clean_rows raw ≠ [] := List.ne_nil_of_mem hr
    obtain ⟨g, hg, hrg⟩ := groupBy_mem_of_rec hr hdner
    have herr : convert_rows (clean_rows raw) now = .error .fieldParse := by
      unfold convert_rows
      rw [if_neg hne]
      exact processDays_bad (sortDesc_mem.mpr hg) hrg hexner hbad
    refine ⟨herr, ?_⟩
    simp only [convert_run]
    rw [if_neg hne, herr]
  · intro st h
    have h' : convert_rows (clean_rows raw) now = .ok st := h
    obtain ⟨hne, hp⟩ := convert_rows_ok h'
    obtain ⟨_, _, _, _, _, _, _, _, _, _, ⟨ls, hls, _, hmem, _⟩⟩ :=
      processDays_ok _ _ _ _ hp StInv_empty
    have hsets : st.setsTab = ls := by
      rw [hls]
      rfl
    intro s hs
    rw [hsets] at hs
    obtain ⟨_, _, d, g, hg, _, r, hrg, _, hwr, hrr⟩ := hmem s hs
    have hgg : (d, g) ∈ groupBy dateKey (clean_rows raw) := sortDesc_mem.mp hg
    exact ⟨r, (groupBy_mem_rec hgg r hrg).2, hwr, hrr⟩

/-- C8 (counterexample): a record with non-blank, non-numeric weight text
("abc") but a blank date never reaches set creation, and the run completes
successfully (exit code 0) — so a non-numeric numeric field is not fatal
for *every* record. -/
theorem C8_cex :
    clean_rows [[("Date", ""), ("Exercise", "Bench"), ("Weight", "abc")]] =
      [[("Date", ""), ("Exercise", "Bench"), ("Weight", "abc")]] ∧
    weightStr [("Date", ""), ("Exercise", "Bench"), ("Weight", "abc")] = "abc" ∧
    parseFloat? "abc" = none ∧
    (convert_run FileState.absent
      [[("Date", ""), ("Exercise", "Bench"), ("Weight", "abc")]] 0).1 = 0 :=
  ⟨rfl, rfl, rfl, rfl⟩

/-- C8 (witness): the same bad weight text on a record that does reach set
creation aborts the run with exit code 1. -/
theorem C8_witness :
    convert_csv_to_db [[("Date", "19/01/2026"), ("Exercise", "Bench"), ("Weight", "abc")]] 0 =
      .error .fieldParse ∧
    (convert_run FileState.absent
      [[("Date", "19/01/2026"), ("Exercise", "Bench"), ("Weight", "abc")]] 0).1 = 1 :=
  (C8_numeric_policy [[("Date", "19/01/2026"), ("Exercise", "Bench"), ("Weight", "abc")]] 0).1
    ⟨[("Date", "19/01/2026"), ("Exercise", "Bench"), ("Weight", "abc")],
      by decide, by decide, by decide, Or.inl ⟨by decide, by decide⟩⟩

/-- C9 (confirmed): when extraction yields zero records the run stops with
exit code 1 *before* the output file is deleted or recreated
(`sys.exit(1)` at line 220 precedes `db_path.unlink()` at line 224), so
whatever was at the output path — including a pre-existing backup — is
left exactly as it was. -/
theorem C9_empty_extraction_preserves (pre : FileState) (raw : List Record) (now : Int)
    (h : clean_rows raw = []) :
    convert_run pre raw now = (1, pre) := by
  simp only [convert_run, h]
  rfl

/-- C9 (witness): an empty input against a pre-existing output file exits
with status 1 and leaves the file untouched. -/
theorem C9_witness :
    convert_run (FileState.preexisting 42) [] 0 = (1, FileState.preexisting 42) :=
  C9_empty_extraction_preserves (FileState.preexisting 42) [] 0 rfl

/-- C10 (confirmed): the denormalized references of every inserted `sets`
row are mutually consistent — the `workout_exercises` row identified by
its `workout_exercise_id` (ids are unique) carries exactly the set's
`workout_id` and `exercise_id`, and that `workout_id` is the workout
created for the date group the set's source record belongs to. -/
theorem C10_denormalized_consistent (raw : List Record) (now : Int) (st : ConvState)
    (h : convert_csv_to_db raw now = .ok st) :
    (st.weTab.map (fun w => w.id)).Nodup ∧
    ∀ s ∈ st.setsTab, ∃ w ∈ st.weTab,
      w.id = s.workout_exercise_id ∧ w.workout_id = s.workout_id ∧
      w.exercise_id = s.exercise_id ∧
      ∃ d, (d, s.workout_id) ∈ st.workoutsMap ∧
        ∃ r ∈ dayGroup raw d, exKey r ≠ "" ∧ WeightOk r s ∧ RepsOk r s := by
  have h' : convert_rows (clean_rows raw) now = .ok st := h
  obtain ⟨hne, hp⟩ := convert_rows_ok h'
  obtain ⟨hInv', _, _, _, _, _, _, _, _, _, ⟨ls, hls, _, hmem, _⟩⟩ :=
    processDays_ok _ _ _ _ hp StInv_empty
  have hsets : st.setsTab = ls := by
    rw [hls]
    rfl
  refine ⟨hInv'.weIdsNodup, ?_⟩
  intro s hs
  rw [hsets] at hs
  obtain ⟨_, ⟨w, hwmem, hw1, hw2, hw3⟩, d, g, hg, hgm, r, hrg, hner, hwr, hrr⟩ := hmem s hs
  have hgg : (d, g) ∈ groupBy dateKey (clean_rows raw) := sortDesc_mem.mp hg
  have hgfil : g = dayGroup raw d := groupBy_mem_eq_filter hgg
  exact ⟨w, hwmem, hw1, hw2, hw3, d, hgm, r, hgfil ▸ hrg, hner, hwr, hrr⟩

/-- C10 (witness): the consistency statement instantiated at the first
inserted set of a two-date, shared-exercise input. -/
theorem C10_witness :
    ∃ w ∈ (outOf [[("Date", "19/01/2026"), ("Exercise", "Bench"), ("Weight", "50")],
        [("Date", "20/01/2026"), ("Exercise", "Bench"), ("Weight", "60")]] 0).weTab,
      w.id = ((outOf [[("Date", "19/01/2026"), ("Exercise", "Bench"), ("Weight", "50")],
        [("Date", "20/01/2026"), ("Exercise", "Bench"), ("Weight", "60")]] 0).setsTab.headD
          default).workout_exercise_id ∧
      w.workout_id = ((outOf [[("Date", "19/01/2026"), ("Exercise", "Bench"), ("Weight", "50")],
        [("Date", "20/01/2026"), ("Exercise", "Bench"), ("Weight", "60")]] 0).setsTab.headD
          default).workout_id ∧
      w.exercise_id = ((outOf [[("Date", "19/01/2026"), ("Exercise", "Bench"), ("Weight", "50")],
        [("Date", "20/01/2026"), ("Exercise", "Bench"), ("Weight", "60")]] 0).setsTab.headD
          default).exercise_id ∧
      ∃ d, (d, ((outOf [[("Date", "19/01/2026"), ("Exercise", "Bench"), ("Weight", "50")],
          [("Date", "20/01/2026"), ("Exercise", "Bench"), ("Weight", "60")]] 0).setsTab.headD
            default).workout_id) ∈
          (outOf [[("Date", "19/01/2026"), ("Exercise", "Bench"), ("Weight", "50")],
            [("Date", "20/01/2026"), ("Exercise", "Bench"), ("Weight", "60")]] 0).workoutsMap ∧
        ∃ r ∈ dayGroup [[("Date", "19/01/2026"), ("Exercise", "Bench"), ("Weight", "50")],
            [("Date", "20/01/2026"), ("Exercise", "Bench"), ("Weight", "60")]] d,
          exKey r ≠ "" ∧
          WeightOk r ((outOf [[("Date", "19/01/2026"), ("Exercise", "Bench"), ("Weight", "50")],
            [("Date", "20/01/2026"), ("Exercise", "Bench"), ("Weight", "60")]] 0).setsTab.headD
              default) ∧
          RepsOk r ((outOf [[("Date", "19/01/2026"), ("Exercise", "Bench"), ("Weight", "50")],
            [("Date", "20/01/2026"), ("Exercise", "Bench"), ("Weight", "60")]] 0).setsTab.headD
              default) :=
  (C10_denormalized_consistent
    [[("Date", "19/01/2026"), ("Exercise", "Bench"), ("Weight", "50")],
      [("Date", "20/01/2026"), ("Exercise", "Bench"), ("Weight", "60")]] 0
    (outOf [[("Date", "19/01/2026"), ("Exercise", "Bench"), ("Weight", "50")],
      [("Date", "20/01/2026"), ("Exercise", "Bench"), ("Weight", "60")]] 0) rfl).2
    ((outOf [[("Date", "19/01/2026"), ("Exercise", "Bench"), ("Weight", "50")],
      [("Date", "20/01/2026"), ("Exercise", "Bench"), ("Weight", "60")]] 0).setsTab.headD default)
    (by decide)
